import Mathlib

/-! goai, an OAI-PMH command line client: a shallow embedding of `goai.go`.

Go strings are modelled by Lean strings; every operation that looks at bytes (`len`,
percent escaping, comparison) works on the UTF-8 encoding, as Go does.  The functions of
`net/url` the program calls are transcribed from the current Go library.  The network and
the XML parser are parameters; a run of a function is the list of its observable actions
together with how it ended. -/

set_option autoImplicit false
set_option maxRecDepth 100000

namespace Goai

/-! ## Go strings -/

/-- The bytes of a Go string (its UTF-8 encoding). -/
def bytes (s : String) : List UInt8 :=
  s.data.flatMap String.utf8EncodeChar

/-- Go's builtin `len` on a string: the number of bytes. -/
def len (s : String) : Nat :=
  (bytes s).length

/-! ## net/url: escaping -/

/-- The `encoding` modes of `net/url`. -/
inductive Encoding where
  | encodePath
  | encodePathSegment
  | encodeHost
  | encodeZone
  | encodeUserPassword
  | encodeQueryComponent
  | encodeFragment
  deriving DecidableEq, Repr

/-- Unreserved alphanumerics of RFC 3986 §2.3. -/
def isAlnum (c : UInt8) : Bool :=
  (97 ≤ c && c ≤ 122) || (65 ≤ c && c ≤ 90) || (48 ≤ c && c ≤ 57)

/-- The bytes `shouldEscape` lets through in a host:
`! $ & ' ( ) * + , ; = : [ ] < > "`. -/
def isHostByte (c : UInt8) : Bool :=
  c == 33 || c == 36 || c == 38 || c == 39 || c == 40 || c == 41 || c == 42 || c == 43 ||
    c == 44 || c == 59 || c == 61 || c == 58 || c == 91 || c == 93 || c == 60 || c == 62 ||
    c == 34

/-- Unreserved marks `-`, `_`, `.`, `~`. -/
def isMark (c : UInt8) : Bool :=
  c == 45 || c == 95 || c == 46 || c == 126

/-- Reserved characters `$ & + , / : ; = ? @`. -/
def isReserved (c : UInt8) : Bool :=
  c == 36 || c == 38 || c == 43 || c == 44 || c == 47 || c == 58 || c == 59 ||
    c == 61 || c == 63 || c == 64

/-- The function `shouldEscape(c, mode)` of `net/url`. -/
def shouldEscape (c : UInt8) (mode : Encoding) : Bool :=
  if isAlnum c then false
  else if (mode == .encodeHost || mode == .encodeZone) && isHostByte c then false
  else if isMark c then false
  else if isReserved c &&
      (mode == .encodePath || mode == .encodePathSegment || mode == .encodeUserPassword ||
        mode == .encodeQueryComponent || mode == .encodeFragment) then
    match mode with
    | .encodePath => c == 63
    | .encodePathSegment => c == 47 || c == 59 || c == 44 || c == 63
    | .encodeUserPassword => c == 64 || c == 47 || c == 63 || c == 58
    | .encodeQueryComponent => true
    | _ => false
  else if mode == .encodeFragment && (c == 33 || c == 40 || c == 41 || c == 42) then false
  else true

/-- The digit `"0123456789ABCDEF"[n]`. -/
def hexDigit (n : UInt8) : Char :=
  if n < 10 then Char.ofNat (48 + n.toNat) else Char.ofNat (55 + n.toNat)

/-- The output of `escape` for one input byte. -/
def escapeByte (mode : Encoding) (c : UInt8) : List Char :=
  if c == 32 && mode == .encodeQueryComponent then [ '+' ]
  else if shouldEscape c mode then [ '%', hexDigit (c >>> 4), hexDigit (c &&& 15) ]
  else [Char.ofNat c.toNat]

/-- The function `escape(s, mode)` of `net/url`: when no byte needs escaping the string is
returned as it is, otherwise every byte is rewritten. -/
def escape (s : String) (mode : Encoding) : String :=
  if (bytes s).all (fun c => !shouldEscape c mode) then s
  else String.mk ((bytes s).flatMap (escapeByte mode))

/-- The function `url.QueryEscape`. -/
def QueryEscape (s : String) : String :=
  escape s .encodeQueryComponent

/-- The function `ishex`. -/
def ishex (c : UInt8) : Bool :=
  (48 ≤ c && c ≤ 57) || (97 ≤ c && c ≤ 102) || (65 ≤ c && c ≤ 70)

/-- The function `unhex`. -/
def unhex (c : UInt8) : UInt8 :=
  if 48 ≤ c && c ≤ 57 then c - 48
  else if 97 ≤ c && c ≤ 102 then c - 97 + 10
  else if 65 ≤ c && c ≤ 70 then c - 65 + 10
  else 0

/-- The extra checks `unescape` makes on an escape `%ab` in a host or a zone. -/
def escapeAllowed (mode : Encoding) (a b : UInt8) : Bool :=
  if mode == .encodeHost && unhex a < 8 && !(a == 50 && b == 53) then false
  else if mode == .encodeZone && !(a == 50 && b == 53) &&
      (unhex a <<< 4 ||| unhex b) != 32 && shouldEscape (unhex a <<< 4 ||| unhex b) .encodeHost
    then false
  else true

/-- The byte `unescape` writes for an input byte that is not `%`. -/
def unescapePlain (mode : Encoding) (c : UInt8) : Option UInt8 :=
  if c == 43 then some (if mode == .encodeQueryComponent then 32 else 43)
  else if (mode == .encodeHost || mode == .encodeZone) && c < 128 &&
      shouldEscape c .encodeHost then none
  else some c

/-- The function `unescape(s, mode)` of `net/url`, on the bytes of the string; `none` is
the error result. -/
def unescape (mode : Encoding) : List UInt8 → Option (List UInt8)
  | [] => some []
  | c :: a :: b :: rest =>
    if c == 37 then
      if ishex a && ishex b && escapeAllowed mode a b then
        (unescape mode rest).map (fun t => (unhex a <<< 4 ||| unhex b) :: t)
      else none
    else
      match unescapePlain mode c, unescape mode (a :: b :: rest) with
      | some x, some t => some (x :: t)
      | _, _ => none
  | c :: rest =>
    if c == 37 then none
    else
      match unescapePlain mode c, unescape mode rest with
      | some x, some t => some (x :: t)
      | _, _ => none

/-- The function `validEncoded(s, mode)` of `net/url`. -/
def validEncoded (s : String) (mode : Encoding) : Bool :=
  (bytes s).all (fun c =>
    if c == 33 || c == 36 || c == 38 || c == 39 || c == 40 || c == 41 || c == 42 ||
        c == 43 || c == 44 || c == 59 || c == 61 || c == 58 || c == 64 then true
    else if c == 91 || c == 93 then true
    else if c == 37 then true
    else !shouldEscape c mode)

/-! ## net/url: Values -/

/-- The type `url.Values`, a `map[string][]string`: an association list with one entry per
key. -/
abbrev Values := List (String × List String)

/-- The empty `url.Values{}`. -/
def Values.empty : Values := []

/-- The method `Values.Add`: `v[key] = append(v[key], value)`. -/
def Values.Add : Values → String → String → Values
  | [], key, value => [(key, [value])]
  | (k, vs) :: rest, key, value =>
    if k = key then (k, vs ++ [value]) :: rest
    else (k, vs) :: Values.Add rest key value

/-- The lookup `v[key]`; a missing key gives the nil slice. -/
def Values.lookup : Values → String → List String
  | [], _ => []
  | (k, vs) :: rest, key => if k = key then vs else Values.lookup rest key

/-- The keys of the map. -/
def Values.keys (v : Values) : List String :=
  v.map Prod.fst

/-- Lexicographic comparison of byte sequences. -/
def bytesLess : List UInt8 → List UInt8 → Bool
  | _, [] => false
  | [], _ :: _ => true
  | a :: as, b :: bs =>
    decide (a.toNat < b.toNat) || (decide (a.toNat = b.toNat) && bytesLess as bs)

/-- Go's `<` on strings: bytewise lexicographic order. -/
def strLess (a b : String) : Bool :=
  bytesLess (bytes a) (bytes b)

/-- The call `sort.Strings`: ascending order for `<`. -/
def sortStrings (keys : List String) : List String :=
  keys.insertionSort (fun a b => strLess b a = false)

/-- One pass of the inner loop of `Values.Encode`: writes `prefix + QueryEscape(v)` for each
value, preceded by `&` when the buffer is not empty. -/
def encodeValues (pfx : String) : String → List String → String
  | buf, [] => buf
  | buf, v :: vs =>
    let buf := if len buf > 0 then buf ++ "&" else buf
    encodeValues pfx (buf ++ pfx ++ QueryEscape v) vs

/-- The outer loop of `Values.Encode` over the sorted keys. -/
def encodeKeys (v : Values) : String → List String → String
  | buf, [] => buf
  | buf, k :: ks =>
    encodeKeys v (encodeValues (QueryEscape k ++ "=") buf (v.lookup k)) ks

/-- The method `Values.Encode`: the "URL encoded" form, sorted by key. -/
def Values.Encode (v : Values) : String :=
  encodeKeys v "" (sortStrings v.keys)

/-! ## net/url: URL -/

/-- The type `url.Userinfo`. -/
structure Userinfo where
  username : String
  password : String
  passwordSet : Bool
  deriving DecidableEq, Repr

/-- The method `Userinfo.String`. -/
def Userinfo.String (u : Userinfo) : String :=
  let s := escape u.username .encodeUserPassword
  if u.passwordSet then s ++ ":" ++ escape u.password .encodeUserPassword else s

/-- The type `url.URL`. -/
structure URL where
  Scheme : String
  Opaque : String
  User : Option Userinfo
  Host : String
  Path : String
  RawPath : String
  OmitHost : Bool
  ForceQuery : Bool
  RawQuery : String
  Fragment : String
  RawFragment : String
  deriving DecidableEq, Repr

/-- The method `URL.EscapedPath`: `RawPath` when it is a valid encoding of `Path`. -/
def URL.EscapedPath (u : URL) : String :=
  if u.RawPath ≠ "" ∧ validEncoded u.RawPath .encodePath = true ∧
      unescape .encodePath (bytes u.RawPath) = some (bytes u.Path) then u.RawPath
  else if u.Path = "*" then "*"
  else escape u.Path .encodePath

/-- The method `URL.EscapedFragment`: `RawFragment` when it is a valid encoding of
`Fragment`. -/
def URL.EscapedFragment (u : URL) : String :=
  if u.RawFragment ≠ "" ∧ validEncoded u.RawFragment .encodeFragment = true ∧
      unescape .encodeFragment (bytes u.RawFragment) = some (bytes u.Fragment) then
    u.RawFragment
  else escape u.Fragment .encodeFragment

/-- Whether the first segment of a path, up to the first `/`, holds a colon. -/
def firstSegmentHasColon (path : String) : Bool :=
  (path.data.takeWhile (fun c => c ≠ '/')).contains ':'

/-- The part of `URL.String` written before the query: scheme, opaque part or authority,
and path. -/
def URL.hierPart (u : URL) : String :=
  let buf := if u.Scheme ≠ "" then u.Scheme ++ ":" else ""
  if u.Opaque ≠ "" then buf ++ u.Opaque
  else
    let buf :=
      if u.Scheme ≠ "" ∨ u.Host ≠ "" ∨ u.User ≠ none then
        if u.OmitHost = true ∧ u.Host = "" ∧ u.User = none then buf
        else
          let buf := if u.Host ≠ "" ∨ u.Path ≠ "" ∨ u.User ≠ none then buf ++ "//" else buf
          let buf := match u.User with
            | some ui => buf ++ ui.String ++ "@"
            | none => buf
          if u.Host ≠ "" then buf ++ escape u.Host .encodeHost else buf
      else buf
    let path := u.EscapedPath
    let buf :=
      if path ≠ "" ∧ path.data.head? ≠ some '/' ∧ u.Host ≠ "" then buf ++ "/" else buf
    let buf := if len buf = 0 ∧ firstSegmentHasColon path = true then buf ++ "./" else buf
    buf ++ path

/-- The method `URL.String`. -/
def URL.String (u : URL) : String :=
  let buf := u.hierPart
  let buf := if u.ForceQuery = true ∨ u.RawQuery ≠ "" then buf ++ "?" ++ u.RawQuery else buf
  if u.Fragment ≠ "" then buf ++ "#" ++ u.EscapedFragment else buf

/-! ## Effects: log lines, HTTP requests, XML parsing, process exit -/

/-- A Go `error` value. -/
structure GoError where
  msg : String
  deriving DecidableEq, Repr

/-- The observable actions of the program, in the order they happen. -/
inductive Event where
  | logPrintln (line : String)
  | httpGet (url : String)
  | xmlParse (text : String)
  | logFatal (err : GoError)
  deriving DecidableEq, Repr

/-- How a call ends: it returns to its caller, or the process exits (`log.Fatal` calls
`os.Exit(1)`). -/
inductive Outcome (α : Type) where
  | returned (a : α)
  | exited (status : Nat)
  deriving DecidableEq, Repr

/-- A run of a piece of the program: the actions performed and how it ended. -/
structure Proc (α : Type) where
  trace : List Event
  outcome : Outcome α
  deriving DecidableEq, Repr

/-- Returning a value without any action. -/
def Proc.ret {α : Type} (a : α) : Proc α :=
  ⟨[], .returned a⟩

/-- Sequencing: what follows an exit does not run. -/
def Proc.andThen {α β : Type} (m : Proc α) (f : α → Proc β) : Proc β :=
  match m.outcome with
  | .returned a => ⟨m.trace ++ (f a).trace, (f a).outcome⟩
  | .exited status => ⟨m.trace, .exited status⟩

instance : Monad Proc where
  pure := Proc.ret
  bind := Proc.andThen

/-- A single action that returns `a`. -/
def Proc.act {α : Type} (e : Event) (a : α) : Proc α :=
  ⟨[e], .returned a⟩

/-- The call `log.Println(line)`. -/
def logPrintln (line : String) : Proc Unit :=
  Proc.act (.logPrintln line) ()

/-- The call `log.Fatal(err)`: prints and exits with status 1. -/
def logFatal {α : Type} (err : GoError) : Proc α :=
  ⟨[.logFatal err], .exited 1⟩

/-- An HTTP response: what `ioutil.ReadAll(resp.Body)` gives. -/
structure Response where
  Body : Except GoError String

/-- The network: what `http.Get` answers for a URL. -/
structure Net where
  Get : String → Except GoError Response

/-- The call `http.Get(url)`. -/
def httpGet (net : Net) (url : String) : Proc (Except GoError Response) :=
  Proc.act (.httpGet url) (net.Get url)

/-! ## xmlpath -/

/-- A node of a parsed XML document. -/
inductive Node where
  | element (name : String) (attrs : List (String × String)) (children : List Node)
  | text (data : String)
  | comment (data : String)
  | procInst (target : String) (data : String)
  deriving Repr

/-- The children of a node. -/
def Node.children : Node → List Node
  | .element _ _ children => children
  | _ => []

/-- Whether a node is an element with the given name. -/
def Node.isElementNamed (name : String) : Node → Bool
  | .element n _ _ => n = name
  | _ => false

mutual
/-- The text nodes within a node, concatenated in document order. -/
def textWithin : Node → String
  | .element _ _ children => textOfList children
  | .text data => data
  | .comment _ => ""
  | .procInst _ _ => ""
/-- The text nodes within a list of nodes, concatenated in document order. -/
def textOfList : List Node → String
  | [] => ""
  | n :: ns => textWithin n ++ textOfList ns
end

/-- The method `Node.String`: for an element, the concatenation of all text nodes within
it; for any other node its own text. -/
def Node.String : Node → String
  | .element _ _ children => textOfList children
  | .text data => data
  | .comment data => data
  | .procInst _ data => data

/-- A compiled path made of child steps, each selecting the child elements with a name. -/
abbrev Path := List String

/-- The nodes a path selects from a context node, in document order. -/
def Path.select : Path → Node → List Node
  | [], context => [context]
  | step :: rest, context =>
    (context.children.filter (Node.isElementNamed step)).flatMap (Path.select rest)

/-- The method `Path.String`: the string value of the first node selected, and whether
there is one. -/
def Path.String (p : Path) (context : Node) : String × Bool :=
  match p.select context with
  | n :: _ => (n.String, true)
  | [] => ("", false)

/-- The XML parser `xmlpath.Parse`: the root node of the document, or an error. -/
structure XmlParser where
  Parse : String → Except GoError Node

/-- The path `xmlpath.MustCompile("OAI-PMH/ListIdentifiers/resumptionToken")`. -/
def resumptionTokenPath : Path :=
  ["OAI-PMH", "ListIdentifiers", "resumptionToken"]

/-! ### encoding/xml and xmlpath.Parse

The theorems below hold for every parser.  To run them on concrete documents, this section
transcribes the strict `xml.Decoder` loop that `xmlpath.Parse` drives, for documents made of
character data (with the predefined and numeric entities), CDATA sections, comments,
processing instructions, directives, and start, end and empty-element tags with
attributes, all with ASCII names.  Names with non-ASCII characters are left out: on those
the functions answer `unmodelled`. -/

/-- An `xml.Name`: the prefix before the colon, and the local name. -/
structure XName where
  Space : String
  Local : String
  deriving DecidableEq, Repr

/-- The result of a step of the decoder: a value, the error the decoder reports, a name
that is missing where one may stand, or an input outside the modelled fragment. -/
inductive Scan (α : Type) where
  | ok (a : α)
  | fail (err : GoError)
  | absent
  | unmodelled

/-- The text of `SyntaxError.Error`. -/
def syntaxError (line : Nat) (msg : String) : GoError :=
  ⟨"XML syntax error on line " ++ toString line ++ ": " ++ msg⟩

/-- The function `isNameByte`. -/
def isNameByte (c : Char) : Bool :=
  ('A' ≤ c && c ≤ 'Z') || ('a' ≤ c && c ≤ 'z') || ('0' ≤ c && c ≤ '9') ||
    c = '_' || c = ':' || c = '.' || c = '-'

/-- The function `isName`, on ASCII names: a letter, `_` or `:` first, name bytes after. -/
def isName : List Char → Bool
  | [] => false
  | c :: cs =>
    (('A' ≤ c && c ≤ 'Z') || ('a' ≤ c && c ≤ 'z') || c = '_' || c = ':') && cs.all isNameByte

/-- The line number after reading a character. -/
def lineAfter (c : Char) (line : Nat) : Nat :=
  if c = '\n' then line + 1 else line

/-- The method `Decoder.space`: skips blanks, tabs and line ends. -/
def skipSpace : List Char → Nat → List Char × Nat
  | [], line => ([], line)
  | c :: cs, line =>
    if c = ' ' ∨ c = '\r' ∨ c = '\n' ∨ c = '\t' then skipSpace cs (lineAfter c line)
    else (c :: cs, line)

/-- The loop of `Decoder.readName` after the first byte; the input ending inside a name is
an error. -/
def readNameTail (line : Nat) : List Char → List Char → Scan (List Char × List Char)
  | _, [] => .fail (syntaxError line "unexpected EOF")
  | acc, c :: cs =>
    if c.toNat ≥ 128 then .unmodelled
    else if isNameByte c then readNameTail line (acc ++ [c]) cs
    else .ok (acc, c :: cs)

/-- The method `Decoder.readName`: the name bytes at the head of the input and what is left
after them. -/
def readName (line : Nat) : List Char → Scan (List Char × List Char)
  | [] => .fail (syntaxError line "unexpected EOF")
  | c :: cs =>
    if c.toNat ≥ 128 then .unmodelled
    else if isNameByte c then readNameTail line [c] cs
    else .absent

/-- The method `Decoder.name`: a name that passes `isName`. -/
def scanName (line : Nat) (cs : List Char) : Scan (List Char × List Char) :=
  match readName line cs with
  | .ok (name, rest) =>
    if isName name then .ok (name, rest)
    else .fail (syntaxError line ("invalid XML name: " ++ String.mk name))
  | r => r

/-- The method `Decoder.nsname`: a name split at its colon; more than one colon gives no
name. -/
def scanNsName (line : Nat) (cs : List Char) : Scan (XName × List Char) :=
  match scanName line cs with
  | .ok (name, rest) =>
    if name.count ':' > 1 then .absent
    else
      let space := name.takeWhile (fun c => c ≠ ':')
      let rest' := name.dropWhile (fun c => c ≠ ':')
      match rest' with
      | [] => .ok (⟨"", String.mk name⟩, rest)
      | _ :: loc =>
        if space = [] ∨ loc = [] then .ok (⟨"", String.mk name⟩, rest)
        else .ok (⟨String.mk space, String.mk loc⟩, rest)
  | .fail e => .fail e
  | .absent => .absent
  | .unmodelled => .unmodelled

/-- The function `isInCharacterRange`. -/
def isInCharacterRange (c : Char) : Bool :=
  c.toNat = 9 || c.toNat = 10 || c.toNat = 13 || (32 ≤ c.toNat && c.toNat ≤ 55295) ||
    (57344 ≤ c.toNat && c.toNat ≤ 65533) || (65536 ≤ c.toNat && c.toNat ≤ 1114111)

/-- Uppercase hexadecimal digits of a number, least significant first. -/
def hexDigitsRev : Nat → Nat → List Char
  | 0, _ => []
  | fuel + 1, n =>
    let d := n % 16
    let ch := if d < 10 then Char.ofNat (48 + d) else Char.ofNat (55 + d)
    if n < 16 then [ch] else ch :: hexDigitsRev fuel (n / 16)

/-- The format `%U` of a character: `U+` and at least four hexadecimal digits. -/
def formatU (c : Char) : String :=
  let ds := (hexDigitsRev 8 c.toNat).reverse
  "U+" ++ String.mk (List.replicate (4 - ds.length) '0' ++ ds)

/-- The check of the text read, rune by rune, at the end of `Decoder.text`. -/
def checkCharacters (line : Nat) : List Char → Option GoError
  | [] => none
  | c :: cs =>
    if isInCharacterRange c then checkCharacters line cs
    else some (syntaxError line ("illegal character code " ++ formatU c))

/-- The value of a digit in a base, if it is one. -/
def digitValue (base : Nat) (c : Char) : Option Nat :=
  if '0' ≤ c ∧ c ≤ '9' then some (c.toNat - 48)
  else if base = 16 ∧ 'a' ≤ c ∧ c ≤ 'f' then some (c.toNat - 87)
  else if base = 16 ∧ 'A' ≤ c ∧ c ≤ 'F' then some (c.toNat - 55)
  else none

/-- The number written by digits in a base. -/
def parseUint (base : Nat) (ds : List Char) : Nat :=
  ds.foldl (fun n c => n * base + (digitValue base c).getD 0) 0

/-- The text `string(rune(n))` for `n` up to `unicode.MaxRune`: surrogates become
U+FFFD. -/
def runeText (n : Nat) : Char :=
  if 55296 ≤ n ∧ n ≤ 57343 then Char.ofNat 65533 else Char.ofNat n

/-- The table `entity` of the predefined entities. -/
def entity (name : List Char) : Option Char :=
  if name = ['l', 't'] then some '<'
  else if name = ['g', 't'] then some '>'
  else if name = ['a', 'm', 'p'] then some '&'
  else if name = ['a', 'p', 'o', 's'] then some '\''
  else if name = ['q', 'u', 'o', 't'] then some '"'
  else none

/-- The error for a character reference that gives no text. -/
def invalidEntity (line : Nat) (ent : List Char) : GoError :=
  syntaxError line ("invalid character entity " ++ String.mk ent ++
    (if ent.getLast? = some ';' then "" else " (no semicolon)"))

/-- The reference after an `&` in `Decoder.text`: the character it stands for and what is
left of the input. -/
def readEntity (line : Nat) : List Char → Scan (Char × List Char)
  | [] => .fail (syntaxError line "unexpected EOF")
  | '#' :: cs =>
    match cs with
    | [] => .fail (syntaxError line "unexpected EOF")
    | b :: cs' =>
      let base := if b = 'x' then 16 else 10
      let body := if b = 'x' then cs' else b :: cs'
      let lead := if b = 'x' then ['&', '#', 'x'] else ['&', '#']
      let ds := body.takeWhile (fun c => (digitValue base c).isSome)
      match body.dropWhile (fun c => (digitValue base c).isSome) with
      | [] => .fail (syntaxError line "unexpected EOF")
      | e :: rest =>
        if b = 'x' ∧ cs' = [] then .fail (syntaxError line "unexpected EOF")
        else if e ≠ ';' then .fail (invalidEntity line (lead ++ ds))
        else if ds = [] ∨ parseUint base ds > 1114111 then
          .fail (invalidEntity line (lead ++ ds ++ [';']))
        else .ok (runeText (parseUint base ds), rest)
  | c :: cs =>
    match readName line (c :: cs) with
    | .fail e => .fail e
    | .unmodelled => .unmodelled
    | .absent =>
      if c = ';' then .fail (invalidEntity line ['&', ';'])
      else .fail (invalidEntity line ['&'])
    | .ok (name, rest) =>
      match rest with
      | [] => .fail (syntaxError line "unexpected EOF")
      | e :: rest' =>
        if e ≠ ';' then .fail (invalidEntity line ('&' :: name))
        else
          match (if isName name then entity name else none) with
          | some ch => .ok (ch, rest')
          | none => .fail (invalidEntity line ('&' :: name ++ [';']))

/-- The method `Decoder.text(quote, cdata)`: reads character data up to a `<`, the closing
quote, or the end of a CDATA section.  `b0` and `b1` are the last two bytes read, `acc` the
text so far, `line` the current line.  Gives the text, what is left of the input, and the
line. -/
def readText (quote : Option Char) (cdata : Bool) :
    Nat → List Char → Nat → Char → Char → List Char → Scan (List Char × List Char × Nat)
  | 0, _, _, _, _, _ => .unmodelled
  | _ + 1, [], line, _, _, acc =>
    if cdata then .fail (syntaxError line "unexpected EOF in CDATA section")
    else
      match checkCharacters line acc, quote with
      | some e, _ => .fail e
      | none, some _ => .fail (syntaxError line "unexpected EOF")
      | none, none => .ok (acc, [], line)
  | fuel + 1, b :: cs, line, b0, b1, acc =>
    if b0 = ']' ∧ b1 = ']' ∧ b = '>' then
      if cdata then
        match checkCharacters (lineAfter b line) (acc.take (acc.length - 2)) with
        | some e => .fail e
        | none => .ok (acc.take (acc.length - 2), cs, lineAfter b line)
      else .fail (syntaxError line "unescaped ]]> not in CDATA section")
    else if b = '<' ∧ cdata = false then
      match quote with
      | some _ => .fail (syntaxError line "unescaped < inside quoted string")
      | none =>
        match checkCharacters line acc with
        | some e => .fail e
        | none => .ok (acc, b :: cs, line)
    else if quote = some b then
      match checkCharacters line acc with
      | some e => .fail e
      | none => .ok (acc, cs, line)
    else if b = '&' ∧ cdata = false then
      match readEntity line cs with
      | .ok (ch, rest) => readText quote cdata fuel rest line (Char.ofNat 0) (Char.ofNat 0)
          (acc ++ [ch])
      | .fail e => .fail e
      | .absent => .unmodelled
      | .unmodelled => .unmodelled
    else if b = '\r' then
      readText quote cdata fuel cs line b1 b (acc ++ ['\n'])
    else if b1 = '\r' ∧ b = '\n' then
      readText quote cdata fuel cs (line + 1) b1 b acc
    else
      readText quote cdata fuel cs (lineAfter b line) b1 b (acc ++ [b])

/-- Whether the input starts with the given characters. -/
def startsWith : List Char → List Char → Bool
  | [], _ => true
  | _ :: _, [] => false
  | p :: ps, c :: cs => p = c && startsWith ps cs

/-- The position of the first occurrence of a pattern in a text, if there is one. -/
def indexOf (pat : List Char) : List Char → Option Nat
  | [] => if pat = [] then some 0 else none
  | c :: cs =>
    if startsWith pat (c :: cs) then some 0
    else (indexOf pat cs).map (fun i => i + 1)

/-- The loop of the function `procInst`: looks for `param=` followed by a quote and gives
the text from after the quote on, with the quote. -/
def procInstValue (param : List Char) : Nat → List Char → Option (Char × List Char)
  | 0, _ => none
  | fuel + 1, s =>
    match indexOf param s with
    | none => none
    | some k =>
      match s.drop (param.length + k) with
      | [] => none
      | c :: rest =>
        if c = '\'' ∨ c = '"' then some (c, rest)
        else procInstValue param fuel (c :: rest)

/-- The function `procInst(param, s)`: the quoted value of a pseudo-attribute of a
processing instruction, or the empty string. -/
def procInst (param : String) (s : List Char) : String :=
  match procInstValue (param.data ++ ['=']) (s.length + 1) s with
  | none => ""
  | some (sep, rest) =>
    if rest.contains sep then String.mk (rest.takeWhile (fun c => c ≠ sep)) else ""

/-- Lower case of an ASCII letter. -/
def asciiLower (c : Char) : Char :=
  if 'A' ≤ c ∧ c ≤ 'Z' then Char.ofNat (c.toNat + 32) else c

/-- The checks the decoder makes on the declaration `<?xml ...?>`: the version must be
1.0 and the encoding, compared without case, UTF-8. -/
def checkDeclaration (content : List Char) : Option GoError :=
  let ver := procInst "version" content
  let enc := procInst "encoding" content
  if ver ≠ "" ∧ ver ≠ "1.0" then
    some ⟨"xml: unsupported version \"" ++ ver ++ "\"; only version 1.0 is supported"⟩
  else if enc ≠ "" ∧ enc.data.map asciiLower ≠ "utf-8".data then
    some ⟨"xml: encoding \"" ++ enc ++ "\" declared but Decoder.CharsetReader is nil"⟩
  else none

/-- The bytes of a processing instruction up to `?>`: the data, what is left of the input,
and the line. -/
def readUntilPIEnd : List Char → Nat → Char → List Char → Scan (List Char × List Char × Nat)
  | [], line, _, _ => .fail (syntaxError line "unexpected EOF")
  | b :: cs, line, b0, acc =>
    if b0 = '?' ∧ b = '>' then .ok (acc.take (acc.length - 1), cs, line)
    else readUntilPIEnd cs (lineAfter b line) b (acc ++ [b])

/-- The bytes of a comment up to `-->`: the text, what is left of the input, and the
line. -/
def readUntilCommentEnd :
    List Char → Nat → Char → Char → List Char → Scan (List Char × List Char × Nat)
  | [], line, _, _, _ => .fail (syntaxError line "unexpected EOF")
  | b :: cs, line, b0, b1, acc =>
    if b0 = '-' ∧ b1 = '-' then
      if b ≠ '>' then
        .fail (syntaxError (lineAfter b line) "invalid sequence \"--\" not allowed in comments")
      else .ok (acc.take (acc.length - 2), cs, line)
    else readUntilCommentEnd cs (lineAfter b line) b1 b (acc ++ [b])

/-- The bytes of a comment inside a directive, up to `-->`: what is left of the input, and
the line. -/
def skipDirectiveComment : List Char → Nat → Char → Char → Scan (List Char × Nat)
  | [], line, _, _ => .fail (syntaxError line "unexpected EOF")
  | b :: cs, line, b0, b1 =>
    if b0 = '-' ∧ b1 = '-' ∧ b = '>' then .ok (cs, line)
    else skipDirectiveComment cs (lineAfter b line) b1 b

/-- The loop that reads a directive `<!...>` to its closing `>`: quoted angle brackets do
not count, nested ones do, comments are skipped.  `pending` is a byte already read that
is still to be handled.  Gives what is left of the input, and the line. -/
def readDirective :
    Nat → Option Char → List Char → Nat → Option Char → Nat → Scan (List Char × Nat)
  | 0, _, _, _, _, _ => .unmodelled
  | _ + 1, none, [], line, _, _ => .fail (syntaxError line "unexpected EOF")
  | fuel + 1, none, b :: cs, line, inquote, depth =>
    if inquote = none ∧ b = '>' ∧ depth = 0 then .ok (cs, line)
    else readDirective fuel (some b) cs (lineAfter b line) inquote depth
  | fuel + 1, some b, cs, line, inquote, depth =>
    if inquote = some b then readDirective fuel none cs line none depth
    else if inquote ≠ none then readDirective fuel none cs line inquote depth
    else if b = '\'' ∨ b = '"' then readDirective fuel none cs line (some b) depth
    else if b = '>' then readDirective fuel none cs line inquote (depth - 1)
    else if b = '<' then
      match cs with
      | [] => .fail (syntaxError line "unexpected EOF")
      | x :: cs1 =>
        if x ≠ '!' then readDirective fuel (some x) cs1 (lineAfter x line) inquote (depth + 1)
        else
          match cs1 with
          | [] => .fail (syntaxError line "unexpected EOF")
          | y :: cs2 =>
            if y ≠ '-' then
              readDirective fuel (some y) cs2 (lineAfter y line) inquote (depth + 1)
            else
              match cs2 with
              | [] => .fail (syntaxError line "unexpected EOF")
              | z :: cs3 =>
                if z ≠ '-' then
                  readDirective fuel (some z) cs3 (lineAfter z line) inquote (depth + 1)
                else
                  match skipDirectiveComment cs3 line (Char.ofNat 0) (Char.ofNat 0) with
                  | .ok (rest, line1) => readDirective fuel none rest line1 inquote depth
                  | .fail e => .fail e
                  | .absent => .unmodelled
                  | .unmodelled => .unmodelled
    else readDirective fuel none cs line inquote depth

/-- The method `Decoder.attrval`: a quoted attribute value. -/
def readAttrValue (cs : List Char) (line : Nat) : Scan (List Char × List Char × Nat) :=
  match cs with
  | [] => .fail (syntaxError line "unexpected EOF")
  | b :: rest =>
    if b = '"' ∨ b = '\'' then
      readText (some b) false (rest.length + 1) rest line (Char.ofNat 0) (Char.ofNat 0) []
    else .fail (syntaxError line "unquoted or missing attribute value in element")

/-- The attribute loop of a start tag: the attributes, whether the tag ends in `/>`, what is
left of the input, and the line. -/
def readAttributes :
    Nat → List Char → Nat → List (XName × String) →
      Scan (List (XName × String) × Bool × List Char × Nat)
  | 0, _, _, _ => .unmodelled
  | fuel + 1, cs, line, attrs =>
    match skipSpace cs line with
    | ([], line1) => .fail (syntaxError line1 "unexpected EOF")
    | (b :: rest, line1) =>
      if b = '/' then
        match rest with
        | [] => .fail (syntaxError line1 "unexpected EOF")
        | b' :: rest' =>
          if b' = '>' then .ok (attrs, true, rest', line1)
          else .fail (syntaxError (lineAfter b' line1) "expected /> in element")
      else if b = '>' then .ok (attrs, false, rest, line1)
      else
        match scanNsName line1 (b :: rest) with
        | .fail e => .fail e
        | .unmodelled => .unmodelled
        | .absent => .fail (syntaxError line1 "expected attribute name in element")
        | .ok (name, rest1) =>
          match skipSpace rest1 line1 with
          | ([], line2) => .fail (syntaxError line2 "unexpected EOF")
          | (e :: rest2, line2) =>
            if e ≠ '=' then .fail (syntaxError line2 "attribute name without = in element")
            else
              match readAttrValue (skipSpace rest2 line2).1 (skipSpace rest2 line2).2 with
              | .ok (value, rest3, line3) =>
                readAttributes fuel rest3 line3 (attrs ++ [(name, String.mk value)])
              | .fail err => .fail err
              | .absent => .unmodelled
              | .unmodelled => .unmodelled

/-- An open element: its name, its attributes, and the children its parent had before
it. -/
structure OpenElement where
  name : XName
  attrs : List (String × String)
  before : List Node

/-- The method `Decoder.popElement` followed by the closing of the node in `xmlpath`: the
end tag must match the innermost open element, which becomes a child of its parent. -/
def popElement (line : Nat) (name : XName) (stack : List OpenElement) (cur : List Node) :
    Except GoError (List OpenElement × List Node) :=
  match stack with
  | [] => .error (syntaxError line ("unexpected end element </" ++ name.Local ++ ">"))
  | top :: stack' =>
    if top.name.Local ≠ name.Local then
      .error (syntaxError line
        ("element <" ++ top.name.Local ++ "> closed by </" ++ name.Local ++ ">"))
    else if top.name.Space ≠ name.Space then
      .error (syntaxError line
        ("element <" ++ top.name.Local ++ "> in space " ++ top.name.Space ++
          " closed by </" ++ name.Local ++ "> in space " ++ name.Space))
    else .ok (stack', top.before ++ [.element top.name.Local top.attrs cur])

/-- The loop of `xmlpath.ParseDecoder` over `Decoder.Token`: `stack` holds the open
elements, `cur` the children of the innermost one.  At the end of the input the root node
is returned, unless an element is still open. -/
def decodeLoop : Nat → List Char → Nat → List OpenElement → List Node → Scan Node
  | 0, _, _, _, _ => .unmodelled
  | _ + 1, [], line, stack, cur =>
    match stack with
    | [] => .ok (.element "" [] cur)
    | _ :: _ => .fail (syntaxError line "unexpected EOF")
  | fuel + 1, b :: cs, line, stack, cur =>
    if b ≠ '<' then
      match readText none false (cs.length + 2) (b :: cs) line (Char.ofNat 0) (Char.ofNat 0)
          [] with
      | .ok (data, rest, line1) =>
        decodeLoop fuel rest line1 stack (cur ++ [.text (String.mk data)])
      | .fail e => .fail e
      | .absent => .unmodelled
      | .unmodelled => .unmodelled
    else
      match cs with
      | [] => .fail (syntaxError line "unexpected EOF")
      | '/' :: cs1 =>
        match scanNsName line cs1 with
        | .fail e => .fail e
        | .unmodelled => .unmodelled
        | .absent => .fail (syntaxError line "expected element name after </")
        | .ok (name, rest) =>
          match skipSpace rest line with
          | ([], line1) => .fail (syntaxError line1 "unexpected EOF")
          | (e :: rest1, line1) =>
            if e ≠ '>' then
              .fail (syntaxError (lineAfter e line1)
                ("invalid characters between </" ++ name.Local ++ " and >"))
            else
              match popElement line1 name stack cur with
              | .error err => .fail err
              | .ok (stack', cur') => decodeLoop fuel rest1 line1 stack' cur'
      | '?' :: cs1 =>
        match scanName line cs1 with
        | .fail e => .fail e
        | .unmodelled => .unmodelled
        | .absent => .fail (syntaxError line "expected target name after <?")
        | .ok (target, rest) =>
          match readUntilPIEnd (skipSpace rest line).1 (skipSpace rest line).2
              (Char.ofNat 0) [] with
          | .ok (data, rest1, line1) =>
            match (if target = ['x', 'm', 'l'] then checkDeclaration data else none) with
            | some err => .fail err
            | none =>
              decodeLoop fuel rest1 line1 stack
                (cur ++ [.procInst (String.mk target) (String.mk data)])
          | .fail e => .fail e
          | .absent => .unmodelled
          | .unmodelled => .unmodelled
      | '!' :: cs1 =>
        match cs1 with
        | [] => .fail (syntaxError line "unexpected EOF")
        | '-' :: cs2 =>
          match cs2 with
          | [] => .fail (syntaxError line "unexpected EOF")
          | d :: cs3 =>
            if d ≠ '-' then
              .fail (syntaxError (lineAfter d line) "invalid sequence <!- not part of <!--")
            else
              match readUntilCommentEnd cs3 line (Char.ofNat 0) (Char.ofNat 0) [] with
              | .ok (data, rest, line1) =>
                decodeLoop fuel rest line1 stack (cur ++ [.comment (String.mk data)])
              | .fail e => .fail e
              | .absent => .unmodelled
              | .unmodelled => .unmodelled
        | '[' :: cs2 =>
          if startsWith ['C', 'D', 'A', 'T', 'A', '['] cs2 then
            match readText none true (cs2.length + 1) (cs2.drop 6) line (Char.ofNat 0)
                (Char.ofNat 0) [] with
            | .ok (data, rest, line1) =>
              decodeLoop fuel rest line1 stack (cur ++ [.text (String.mk data)])
            | .fail e => .fail e
            | .absent => .unmodelled
            | .unmodelled => .unmodelled
          else if cs2.length < 6 ∧ startsWith cs2 ['C', 'D', 'A', 'T', 'A', '['] then
            .fail (syntaxError line "unexpected EOF")
          else .fail (syntaxError line "invalid <![ sequence")
        | d :: cs2 =>
          match readDirective (2 * cs2.length + 2) none cs2 (lineAfter d line) none 0 with
          | .ok (rest, line1) => decodeLoop fuel rest line1 stack cur
          | .fail e => .fail e
          | .absent => .unmodelled
          | .unmodelled => .unmodelled
      | _ :: _ =>
        match scanNsName line cs with
        | .fail e => .fail e
        | .unmodelled => .unmodelled
        | .absent => .fail (syntaxError line "expected element name after <")
        | .ok (name, rest) =>
          match readAttributes (rest.length + 1) rest line [] with
          | .ok (attrs, isEmpty, rest1, line1) =>
            let attrs' := attrs.map (fun a => (a.1.Local, a.2))
            if isEmpty then
              decodeLoop fuel rest1 line1 stack (cur ++ [.element name.Local attrs' []])
            else decodeLoop fuel rest1 line1 (⟨name, attrs', cur⟩ :: stack) []
          | .fail e => .fail e
          | .absent => .unmodelled
          | .unmodelled => .unmodelled

/-- The function `xmlpath.Parse` on a text of the modelled fragment; `none` outside it. -/
def xmlpathParse (s : String) : Option (Except GoError Node) :=
  match decodeLoop (s.length + 1) s.data 1 [] [] with
  | .ok root => some (.ok root)
  | .fail err => some (.error err)
  | .absent => none
  | .unmodelled => none

/-- The parser `xmlpath.Parse` as far as it is modelled, completed by `other` on the texts
outside the modelled fragment. -/
def xmlpathOr (other : XmlParser) : XmlParser where
  Parse s := (xmlpathParse s).getD (other.Parse s)

/-- The parser used to run the examples: `xmlpath.Parse` on the modelled fragment; the
texts outside it, which no example uses, count as accepted with an empty document. -/
def exampleXml : XmlParser :=
  xmlpathOr ⟨fun _ => .ok (.element "" [] [])⟩

/-- A network on which every request fails. -/
def refusingNet : Net where
  Get _ := .error ⟨"connection refused"⟩

/-- A network that answers every request with the given body. -/
def servingNet (body : String) : Net where
  Get _ := .ok ⟨.ok body⟩

/-! ## goai.go -/

/-- The type `Repository`. -/
structure Repository where
  Url : URL
  deriving DecidableEq, Repr

/-- The function `BodyAsString`. -/
def BodyAsString (net : Net) (locator : URL) : Proc (String × Option GoError) := do
  logPrintln locator.String
  let r ← httpGet net locator.String
  match r with
  | .error err => return ("", some err)
  | .ok resp =>
    match resp.Body with
    | .error err => return ("", some err)
    | .ok body => return (body, none)

/-- The function `ParseResumptionToken`. -/
def ParseResumptionToken (xml : XmlParser) (s : String) : Proc String := do
  let path := resumptionTokenPath
  let r ← Proc.act (.xmlParse s) (xml.Parse s)
  match r with
  | .error err => logFatal err
  | .ok root =>
    let (value, ok) := path.String root
    if ok then return value
    else return ""

/-- The parameters `GetRecord` builds. -/
def GetRecordParameters (identifier metadataPrefix : String) : Values :=
  let parameters := Values.empty
  let parameters := parameters.Add "verb" "GetRecord"
  let parameters := parameters.Add "identifier" identifier
  let parameters := parameters.Add "metadataPrefix" metadataPrefix
  parameters

/-- The URL `GetRecord` hands to `BodyAsString`. -/
def GetRecordUrl (r : Repository) (identifier metadataPrefix : String) : URL :=
  let Url := r.Url
  { Url with RawQuery := (GetRecordParameters identifier metadataPrefix).Encode }

/-- The method `Repository.GetRecord`. -/
def Repository.GetRecord (net : Net) (r : Repository) (identifier metadataPrefix : String) :
    Proc (String × Option GoError) :=
  BodyAsString net (GetRecordUrl r identifier metadataPrefix)

/-- The parameters `Identify` builds. -/
def IdentifyParameters : Values :=
  let parameters := Values.empty
  let parameters := parameters.Add "verb" "Identify"
  parameters

/-- The URL `Identify` hands to `BodyAsString`. -/
def IdentifyUrl (r : Repository) : URL :=
  let Url := r.Url
  { Url with RawQuery := IdentifyParameters.Encode }

/-- The method `Repository.Identify`. -/
def Repository.Identify (net : Net) (r : Repository) : Proc (String × Option GoError) :=
  BodyAsString net (IdentifyUrl r)

/-- The parameters `ListIdentifiers` builds. -/
def ListIdentifiersParameters («from» «until» metadataPrefix «set» resumptionToken : String) :
    Values :=
  let parameters := Values.empty
  let parameters := parameters.Add "verb" "ListIdentifiers"
  if len resumptionToken > 0 then
    parameters.Add "resumptionToken" resumptionToken
  else
    let parameters := if len «from» > 0 then parameters.Add "from" «from» else parameters
    let parameters := if len «until» > 0 then parameters.Add "until" «until» else parameters
    let parameters := if len «set» > 0 then parameters.Add "set" «set» else parameters
    let parameters :=
      if len metadataPrefix > 0 then parameters.Add "metadataPrefix" metadataPrefix
      else parameters
    parameters

/-- The URL `ListIdentifiers` hands to `BodyAsString`. -/
def ListIdentifiersUrl (r : Repository)
    («from» «until» metadataPrefix «set» resumptionToken : String) : URL :=
  let Url := r.Url
  { Url with
    RawQuery :=
      (ListIdentifiersParameters «from» «until» metadataPrefix «set» resumptionToken).Encode }

/-- The method `Repository.ListIdentifiers`. -/
def Repository.ListIdentifiers (net : Net) (xml : XmlParser) (r : Repository)
    («from» «until» metadataPrefix «set» resumptionToken : String) :
    Proc (String × Option GoError) := do
  let (body, err) ←
    BodyAsString net (ListIdentifiersUrl r «from» «until» metadataPrefix «set» resumptionToken)
  let token ← ParseResumptionToken xml body
  logPrintln token
  return (body, err)

/-- A call of one of the three methods. -/
inductive Call where
  | GetRecord (identifier metadataPrefix : String)
  | Identify
  | ListIdentifiers («from» «until» metadataPrefix «set» resumptionToken : String)
  deriving DecidableEq, Repr

/-- The URL a call hands to `BodyAsString`. -/
def Call.url (r : Repository) : Call → URL
  | .GetRecord identifier metadataPrefix => GetRecordUrl r identifier metadataPrefix
  | .Identify => IdentifyUrl r
  | .ListIdentifiers f u m s t => ListIdentifiersUrl r f u m s t

/-- The parameters a call builds. -/
def Call.parameters : Call → Values
  | .GetRecord identifier metadataPrefix => GetRecordParameters identifier metadataPrefix
  | .Identify => IdentifyParameters
  | .ListIdentifiers f u m s t => ListIdentifiersParameters f u m s t

/-- The name of the verb of a call. -/
def Call.verb : Call → String
  | .GetRecord _ _ => "GetRecord"
  | .Identify => "Identify"
  | .ListIdentifiers _ _ _ _ _ => "ListIdentifiers"

/-- Running a call on a repository value: the value of the receiver when the method
returns, and the run.  The methods have value receivers and assign only to their local
copy `Url`. -/
def Repository.invoke (net : Net) (xml : XmlParser) (r : Repository) :
    Call → Repository × Proc (String × Option GoError)
  | .GetRecord identifier metadataPrefix => (r, r.GetRecord net identifier metadataPrefix)
  | .Identify => (r, r.Identify net)
  | .ListIdentifiers f u m s t => (r, r.ListIdentifiers net xml f u m s t)

/-- Successive calls on one repository variable: the runs, in order, up to the first one
that exits the process. -/
def Repository.session (net : Net) (xml : XmlParser) :
    Repository → List Call → List (Proc (String × Option GoError))
  | _, [] => []
  | r, c :: cs =>
    match (r.invoke net xml c).2.outcome with
    | .returned _ =>
      (r.invoke net xml c).2 :: Repository.session net xml (r.invoke net xml c).1 cs
    | .exited _ => [(r.invoke net xml c).2]

/-! ## Specification-side notions -/

/-- The buffer discipline of `Encode`: an `&` goes before an item unless the buffer is
empty. -/
def joinAmp : String → List String → String
  | buf, [] => buf
  | buf, item :: items => joinAmp ((if len buf > 0 then buf ++ "&" else buf) ++ item) items

/-- The (key, value) parameters of a `Values`, each key with each of its values. -/
def Values.pairs (v : Values) : List (String × String) :=
  v.flatMap (fun e => e.2.map (fun x => (e.1, x)))

/-- The parameters in the order `Encode` writes them: keys ascending. -/
def Values.sortedPairs (v : Values) : List (String × String) :=
  (sortStrings v.keys).flatMap (fun k => (v.lookup k).map (fun x => (k, x)))

/-- One parameter rendered as `key=value`, both percent-escaped. -/
def renderPair (p : String × String) : String :=
  QueryEscape p.1 ++ "=" ++ QueryEscape p.2

/-- What `URL.String` writes after the query. -/
def fragmentPart (u : URL) : String :=
  if u.Fragment ≠ "" then "#" ++ u.EscapedFragment else ""

/-- The pair `BodyAsString` returns for what the network answers. -/
def fetchResult (net : Net) (url : String) : String × Option GoError :=
  match net.Get url with
  | .error err => ("", some err)
  | .ok resp =>
    match resp.Body with
    | .error err => ("", some err)
    | .ok body => (body, none)

/-- A node the path `OAI-PMH/ListIdentifiers/resumptionToken` matches from the root: a
`resumptionToken` child of a `ListIdentifiers` child of an `OAI-PMH` child of the root. -/
def Matches (root n : Node) : Prop :=
  ∃ a b, a ∈ root.children ∧ a.isElementNamed "OAI-PMH" = true ∧
    b ∈ a.children ∧ b.isElementNamed "ListIdentifiers" = true ∧
    n ∈ b.children ∧ n.isElementNamed "resumptionToken" = true

/-- Whether a node is white space only character data, a comment or a processing
instruction: what XML 1.0 allows beside the root element of a document. -/
def isMisc : Node → Bool
  | .text data => data.data.all (fun c => c = ' ' || c = '\t' || c = '\n' || c = '\r')
  | .comment _ => true
  | .procInst _ _ => true
  | .element _ _ _ => false

/-- Whether a root node is that of a well-formed XML document: exactly one element at the
top, with nothing but white space, comments and processing instructions around it. -/
def isDocument (root : Node) : Bool :=
  match root.children.filter (fun n => !isMisc n) with
  | [.element _ _ _] => true
  | _ => false

/-- Whether an action is an HTTP request. -/
def Event.isHttpGet : Event → Bool
  | .httpGet _ => true
  | _ => false

/-- Whether an action is a call of the XML parser. -/
def Event.isXmlParse : Event → Bool
  | .xmlParse _ => true
  | _ => false

/-- Whether an action is a fatal log call. -/
def Event.isLogFatal : Event → Bool
  | .logFatal _ => true
  | _ => false

/-- The example base URL: what `url.Parse` gives for `http://example.org/oai2`. -/
def exampleBase : URL where
  Scheme := "http"
  Opaque := ""
  User := none
  Host := "example.org"
  Path := "/oai2"
  RawPath := ""
  OmitHost := false
  ForceQuery := false
  RawQuery := ""
  Fragment := ""
  RawFragment := ""

/-- The example response `<OAI-PMH><ListIdentifiers><resumptionToken>ABC123...`. -/
def exampleDocument : String :=
  "<OAI-PMH><ListIdentifiers><resumptionToken>ABC123</resumptionToken></ListIdentifiers></OAI-PMH>"

/-- The tree of the example response. -/
def exampleTree : Node :=
  .element "" [] [.element "OAI-PMH" [] [.element "ListIdentifiers" []
    [.element "resumptionToken" [] [.text "ABC123"]]]]

/-- The example response with a declaration that names the encoding ISO-8859-1. -/
def latin1Document : String :=
  "<?xml version=\"1.0\" encoding=\"ISO-8859-1\"?>" ++ exampleDocument

/-- The example response with a declaration that names the encoding UTF-8. -/
def utf8Document : String :=
  "<?xml version=\"1.0\" encoding=\"UTF-8\"?>" ++ exampleDocument

/-- The tree of `utf8Document`. -/
def utf8Tree : Node :=
  .element "" [] [.procInst "xml" "version=\"1.0\" encoding=\"UTF-8\"",
    .element "OAI-PMH" [] [.element "ListIdentifiers" []
      [.element "resumptionToken" [] [.text "ABC123"]]]]

/-! ## Lemmas: strings -/

theorem utf8EncodeChar_ne_nil (c : Char) : String.utf8EncodeChar c ≠ [] := by
  unfold String.utf8EncodeChar
  simp only
  split_ifs <;> simp

theorem bytes_eq_nil_iff (s : String) : bytes s = [] ↔ s = "" := by
  constructor
  · intro h
    apply String.ext
    cases hd : s.data with
    | nil => rfl
    | cons c cs =>
      exfalso
      unfold bytes at h
      rw [hd] at h
      simp only [List.flatMap_cons, List.append_eq_nil] at h
      exact utf8EncodeChar_ne_nil c h.1
  · rintro rfl
    rfl

theorem len_pos_iff (s : String) : len s > 0 ↔ s ≠ "" := by
  unfold len
  rw [gt_iff_lt, List.length_pos, Ne, Ne, bytes_eq_nil_iff]

theorem len_empty : ¬ len "" > 0 := by
  simp [len_pos_iff]

theorem length_pos_iff (s : String) : s.length > 0 ↔ s ≠ "" := by
  rw [gt_iff_lt, String.length, List.length_pos]
  constructor
  · rintro h rfl
    exact h rfl
  · intro h hd
    exact h (String.ext hd)

theorem append_ne_empty_right (a b : String) (h : b ≠ "") : a ++ b ≠ "" := by
  rw [← length_pos_iff] at h ⊢
  rw [String.length_append]
  omega

theorem append_ne_empty_left (a b : String) (h : a ≠ "") : a ++ b ≠ "" := by
  rw [← length_pos_iff] at h ⊢
  rw [String.length_append]
  omega

theorem renderPair_ne_empty (p : String × String) : renderPair p ≠ "" := by
  unfold renderPair
  apply append_ne_empty_left
  apply append_ne_empty_right
  decide

/-! ## Lemmas: `Values.Encode` -/

theorem joinAmp_append (buf : String) (xs ys : List String) :
    joinAmp buf (xs ++ ys) = joinAmp (joinAmp buf xs) ys := by
  induction xs generalizing buf with
  | nil => rfl
  | cons x xs ih => simp [joinAmp, ih]

theorem encodeValues_eq (pfx buf : String) (vs : List String) :
    encodeValues pfx buf vs = joinAmp buf (vs.map (fun x => pfx ++ QueryEscape x)) := by
  induction vs generalizing buf with
  | nil => rfl
  | cons x xs ih =>
    simp only [encodeValues, List.map_cons, joinAmp]
    rw [ih]
    split_ifs <;> simp [String.append_assoc]

theorem encodeKeys_eq (v : Values) (buf : String) (ks : List String) :
    encodeKeys v buf ks =
      joinAmp buf ((ks.flatMap (fun k => (v.lookup k).map (fun x => (k, x)))).map renderPair) := by
  induction ks generalizing buf with
  | nil => rfl
  | cons k ks ih =>
    simp only [encodeKeys, List.flatMap_cons, List.map_append, joinAmp_append]
    rw [ih, encodeValues_eq]
    simp [renderPair, Function.comp_def]

theorem joinAmp_go (buf : String) (items : List String) (hb : buf ≠ "")
    (h : ∀ x ∈ items, x ≠ "") : joinAmp buf items = String.intercalate.go buf "&" items := by
  induction items generalizing buf with
  | nil => rfl
  | cons x xs ih =>
    have hpos : len buf > 0 := (len_pos_iff buf).2 hb
    simp only [joinAmp, hpos, if_true, String.intercalate.go]
    apply ih
    · exact append_ne_empty_left _ _ (append_ne_empty_left _ _ hb)
    · intro y hy
      exact h y (List.mem_cons_of_mem _ hy)

theorem joinAmp_intercalate (items : List String) (h : ∀ x ∈ items, x ≠ "") :
    joinAmp "" items = "&".intercalate items := by
  cases items with
  | nil => rfl
  | cons x xs =>
    have hx : x ≠ "" := h x (List.mem_cons_self _ _)
    simp only [joinAmp, String.intercalate]
    have h0 : ¬ (len "" > 0) := len_empty
    simp only [h0, if_false, String.empty_append]
    apply joinAmp_go _ _ hx
    intro y hy
    exact h y (List.mem_cons_of_mem _ hy)

/-- The method `Encode` writes the parameters as `key=value` joined by `&`, keys in the
order `sort.Strings` gives. -/
theorem Encode_eq (v : Values) :
    v.Encode = "&".intercalate (v.sortedPairs.map renderPair) := by
  unfold Values.Encode Values.sortedPairs
  rw [encodeKeys_eq]
  apply joinAmp_intercalate
  intro x hx
  obtain ⟨p, _, rfl⟩ := List.mem_map.1 hx
  exact renderPair_ne_empty p

/-! ## Lemmas: `sort.Strings` -/

theorem bytesLess_nil_right (x : List UInt8) : bytesLess x [] = false := by
  cases x <;> rfl

theorem bytesLess_total (x y : List UInt8) : bytesLess y x = false ∨ bytesLess x y = false := by
  induction x generalizing y with
  | nil => exact Or.inl (bytesLess_nil_right y)
  | cons a as ih =>
    cases y with
    | nil => exact Or.inr rfl
    | cons b bs =>
      simp only [bytesLess, Bool.or_eq_false_iff, Bool.and_eq_false_iff, decide_eq_false_iff_not]
      rcases ih bs with h | h
      · by_cases hlt : a.toNat < b.toNat
        · left
          exact ⟨by omega, Or.inl (by omega)⟩
        · by_cases hgt : b.toNat < a.toNat
          · right
            exact ⟨by omega, Or.inl (by omega)⟩
          · left
            exact ⟨hgt, Or.inr h⟩
      · by_cases hlt : a.toNat < b.toNat
        · left
          exact ⟨by omega, Or.inl (by omega)⟩
        · by_cases hgt : b.toNat < a.toNat
          · right
            exact ⟨by omega, Or.inl (by omega)⟩
          · right
            exact ⟨hlt, Or.inr h⟩

theorem bytesLess_trans (x y z : List UInt8) (h1 : bytesLess y x = false)
    (h2 : bytesLess z y = false) : bytesLess z x = false := by
  induction x generalizing y z with
  | nil => exact bytesLess_nil_right z
  | cons a as ih =>
    cases y with
    | nil => simp [bytesLess] at h1
    | cons b bs =>
      cases z with
      | nil => simp [bytesLess] at h2
      | cons c cs =>
        simp only [bytesLess, Bool.or_eq_false_iff, Bool.and_eq_false_iff,
          decide_eq_false_iff_not] at h1 h2 ⊢
        obtain ⟨h1a, h1b⟩ := h1
        obtain ⟨h2a, h2b⟩ := h2
        refine ⟨by omega, ?_⟩
        by_cases hca : c.toNat = a.toNat
        · right
          have hba : b.toNat = a.toNat := by omega
          have hcb : c.toNat = b.toNat := by omega
          rcases h1b with h | h
          · exact absurd hba h
          · rcases h2b with h' | h'
            · exact absurd hcb h'
            · exact ih bs cs h h'
        · exact Or.inl hca

theorem strLess_isTotal : IsTotal String (fun a b => strLess b a = false) :=
  ⟨fun a b => bytesLess_total (bytes a) (bytes b)⟩

theorem strLess_isTrans : IsTrans String (fun a b => strLess b a = false) :=
  ⟨fun a b c h1 h2 => bytesLess_trans (bytes a) (bytes b) (bytes c) h1 h2⟩

/-- The call `sort.Strings` returns its input rearranged so that no element is followed by
a smaller one. -/
theorem sortStrings_sorted (ks : List String) :
    (sortStrings ks).Sorted (fun a b => strLess b a = false) ∧ (sortStrings ks).Perm ks :=
  ⟨@List.sorted_insertionSort _ _ _ strLess_isTotal strLess_isTrans ks,
    List.perm_insertionSort _ ks⟩

/-! ## Lemmas: the parameters of each verb -/

theorem GetRecordParameters_eq (identifier metadataPrefix : String) :
    GetRecordParameters identifier metadataPrefix =
      [("verb", ["GetRecord"]), ("identifier", [identifier]),
        ("metadataPrefix", [metadataPrefix])] := by
  simp [GetRecordParameters, Values.Add, Values.empty]

theorem IdentifyParameters_eq : IdentifyParameters = [("verb", ["Identify"])] := rfl

theorem ListIdentifiersParameters_token (f u m s t : String) (ht : t ≠ "") :
    ListIdentifiersParameters f u m s t =
      [("verb", ["ListIdentifiers"]), ("resumptionToken", [t])] := by
  have h : len t > 0 := (len_pos_iff t).2 ht
  simp [ListIdentifiersParameters, h, Values.Add, Values.empty]

theorem ListIdentifiersParameters_noToken (f u m s : String) :
    ListIdentifiersParameters f u m s "" =
      ("verb", ["ListIdentifiers"]) ::
        ((if f = "" then [] else [("from", [f])]) ++
          (if u = "" then [] else [("until", [u])]) ++
          (if s = "" then [] else [("set", [s])]) ++
          (if m = "" then [] else [("metadataPrefix", [m])])) := by
  by_cases hf : f = "" <;> by_cases hu : u = "" <;> by_cases hs : s = "" <;>
    by_cases hm : m = "" <;>
    simp [ListIdentifiersParameters, len_pos_iff, hf, hu, hs, hm, Values.Add, Values.empty]

/-! ## Lemmas: the query string of each verb -/

theorem GetRecord_query (identifier metadataPrefix : String) :
    (GetRecordParameters identifier metadataPrefix).Encode =
      "identifier=" ++ QueryEscape identifier ++ "&metadataPrefix=" ++
        QueryEscape metadataPrefix ++ "&verb=GetRecord" := by
  have hs : sortStrings ["verb", "identifier", "metadataPrefix"] =
      ["identifier", "metadataPrefix", "verb"] := by decide
  have h1 : QueryEscape "identifier" = "identifier" := by decide
  have h2 : QueryEscape "metadataPrefix" = "metadataPrefix" := by decide
  have h3 : QueryEscape "verb" = "verb" := by decide
  have h4 : QueryEscape "GetRecord" = "GetRecord" := by decide
  rw [Encode_eq, GetRecordParameters_eq]
  simp [Values.sortedPairs, Values.keys, hs, Values.lookup, renderPair, String.intercalate,
    String.intercalate.go, h1, h2, h3, h4, String.append_assoc]
  rfl

theorem ListIdentifiers_token_query (f u m s t : String) (ht : t ≠ "") :
    (ListIdentifiersParameters f u m s t).Encode =
      "resumptionToken=" ++ QueryEscape t ++ "&verb=ListIdentifiers" := by
  have hs : sortStrings ["verb", "resumptionToken"] = ["resumptionToken", "verb"] := by decide
  have h1 : QueryEscape "resumptionToken" = "resumptionToken" := by decide
  have h3 : QueryEscape "verb" = "verb" := by decide
  have h4 : QueryEscape "ListIdentifiers" = "ListIdentifiers" := by decide
  rw [Encode_eq, ListIdentifiersParameters_token f u m s t ht]
  simp [Values.sortedPairs, Values.keys, hs, Values.lookup, renderPair, String.intercalate,
    String.intercalate.go, h1, h3, h4, String.append_assoc]

theorem ListIdentifiersParameters_cases (f u m s t : String) :
    (t ≠ "" ∧ ListIdentifiersParameters f u m s t =
        [("verb", ["ListIdentifiers"]), ("resumptionToken", [t])]) ∨
      (t = "" ∧ ListIdentifiersParameters f u m s t =
        ("verb", ["ListIdentifiers"]) ::
          ((if f = "" then [] else [("from", [f])]) ++
            (if u = "" then [] else [("until", [u])]) ++
            (if s = "" then [] else [("set", [s])]) ++
            (if m = "" then [] else [("metadataPrefix", [m])]))) := by
  by_cases ht : t = ""
  · right
    subst ht
    exact ⟨rfl, ListIdentifiersParameters_noToken f u m s⟩
  · left
    exact ⟨ht, ListIdentifiersParameters_token f u m s t ht⟩

/-- Every call has the parameter `verb`, with the name of its verb as only value. -/
theorem Call.lookup_verb (c : Call) :
    "verb" ∈ c.parameters.keys ∧ c.parameters.lookup "verb" = [c.verb] := by
  cases c with
  | GetRecord i m =>
    simp [Call.parameters, Call.verb, GetRecordParameters_eq, Values.keys, Values.lookup]
  | Identify =>
    simp [Call.parameters, Call.verb, IdentifyParameters_eq, Values.keys, Values.lookup]
  | ListIdentifiers f u m s t =>
    rcases ListIdentifiersParameters_cases f u m s t with ⟨_, h⟩ | ⟨_, h⟩ <;>
      simp [Call.parameters, Call.verb, h, Values.keys, Values.lookup]

theorem joinAmp_ne_empty_of_buf (buf : String) (items : List String) (hb : buf ≠ "") :
    joinAmp buf items ≠ "" := by
  induction items generalizing buf with
  | nil => exact hb
  | cons x xs ih =>
    simp only [joinAmp]
    apply ih
    apply append_ne_empty_left
    split_ifs
    · exact append_ne_empty_left _ _ hb
    · exact hb

theorem joinAmp_ne_empty (items : List String) (h : ∀ x ∈ items, x ≠ "") (hne : items ≠ []) :
    joinAmp "" items ≠ "" := by
  cases items with
  | nil => exact absurd rfl hne
  | cons x xs =>
    simp only [joinAmp]
    apply joinAmp_ne_empty_of_buf
    apply append_ne_empty_right
    exact h x (List.mem_cons_self _ _)

/-- The query string of a call is never empty: it holds at least the verb. -/
theorem Call.Encode_ne_empty (c : Call) : c.parameters.Encode ≠ "" := by
  unfold Values.Encode
  rw [encodeKeys_eq]
  apply joinAmp_ne_empty
  · intro x hx
    obtain ⟨p, _, rfl⟩ := List.mem_map.1 hx
    exact renderPair_ne_empty p
  · intro h
    have hmem : ("verb", c.verb) ∈
        (sortStrings c.parameters.keys).flatMap
          (fun k => (c.parameters.lookup k).map (fun x => (k, x))) := by
      rw [List.mem_flatMap]
      refine ⟨"verb", ((sortStrings_sorted _).2.mem_iff).2 c.lookup_verb.1, ?_⟩
      rw [c.lookup_verb.2]
      simp
    rw [List.map_eq_nil_iff] at h
    rw [h] at hmem
    exact absurd hmem (List.not_mem_nil _)

theorem hierPart_withQuery (u : URL) (q : String) :
    URL.hierPart { u with RawQuery := q } = URL.hierPart u := rfl

theorem EscapedFragment_withQuery (u : URL) (q : String) :
    URL.EscapedFragment { u with RawQuery := q } = URL.EscapedFragment u := rfl

/-- The string of a URL whose query is not empty. -/
theorem urlString_withQuery (u : URL) (q : String) (hq : q ≠ "") :
    URL.String { u with RawQuery := q } = URL.hierPart u ++ "?" ++ q ++ fragmentPart u := by
  unfold URL.String fragmentPart
  have hc : (u.ForceQuery = true ∨ q ≠ "") := Or.inr hq
  simp only [hierPart_withQuery, EscapedFragment_withQuery, hc, if_true]
  split_ifs
  · simp only [String.append_assoc]
  · simp

theorem Call.url_eq (r : Repository) (c : Call) :
    c.url r = { r.Url with RawQuery := c.parameters.Encode } := by
  cases c <;> rfl

/-- The string of the URL a call requests. -/
theorem Call.url_String (r : Repository) (c : Call) :
    (c.url r).String =
      r.Url.hierPart ++ "?" ++ c.parameters.Encode ++ fragmentPart r.Url := by
  rw [Call.url_eq, urlString_withQuery _ _ c.Encode_ne_empty]

/-! ## Lemmas: runs -/

/-- A run of `BodyAsString`: the URL is logged, one GET is made, and the call returns. -/
theorem BodyAsString_eq (net : Net) (locator : URL) :
    BodyAsString net locator =
      ⟨[.logPrintln locator.String, .httpGet locator.String],
        .returned (fetchResult net locator.String)⟩ := by
  unfold BodyAsString fetchResult
  simp only [bind, Proc.andThen, logPrintln, httpGet, Proc.act, pure, Proc.ret]
  cases net.Get locator.String with
  | error err => rfl
  | ok resp =>
    cases hb : resp.Body <;> simp [hb]

/-- A run of `ParseResumptionToken` on a text the parser rejects. -/
theorem ParseResumptionToken_error (xml : XmlParser) (s : String) (err : GoError)
    (h : xml.Parse s = .error err) :
    ParseResumptionToken xml s = ⟨[.xmlParse s, .logFatal err], .exited 1⟩ := by
  unfold ParseResumptionToken
  simp only [bind, Proc.andThen, Proc.act, h, logFatal, List.singleton_append]

/-- A run of `ParseResumptionToken` on a text the parser accepts. -/
theorem ParseResumptionToken_ok (xml : XmlParser) (s : String) (root : Node)
    (h : xml.Parse s = .ok root) :
    ParseResumptionToken xml s =
      ⟨[.xmlParse s],
        .returned (if (resumptionTokenPath.String root).2 then (resumptionTokenPath.String root).1
          else "")⟩ := by
  unfold ParseResumptionToken
  simp only [bind, Proc.andThen, Proc.act, h, pure, Proc.ret]
  split_ifs <;> simp_all [Proc.ret]

/-- A run of `ListIdentifiers`, by what the parser says of the body fetched. -/
theorem ListIdentifiers_eq (net : Net) (xml : XmlParser) (r : Repository)
    (f u m s t : String) :
    r.ListIdentifiers net xml f u m s t =
      match xml.Parse (fetchResult net (ListIdentifiersUrl r f u m s t).String).1 with
      | .error err =>
        ⟨[.logPrintln (ListIdentifiersUrl r f u m s t).String,
            .httpGet (ListIdentifiersUrl r f u m s t).String,
            .xmlParse (fetchResult net (ListIdentifiersUrl r f u m s t).String).1,
            .logFatal err],
          .exited 1⟩
      | .ok root =>
        ⟨[.logPrintln (ListIdentifiersUrl r f u m s t).String,
            .httpGet (ListIdentifiersUrl r f u m s t).String,
            .xmlParse (fetchResult net (ListIdentifiersUrl r f u m s t).String).1,
            .logPrintln (if (resumptionTokenPath.String root).2
              then (resumptionTokenPath.String root).1 else "")],
          .returned (fetchResult net (ListIdentifiersUrl r f u m s t).String)⟩ := by
  unfold Repository.ListIdentifiers
  simp only [bind, BodyAsString_eq]
  cases h : xml.Parse (fetchResult net (ListIdentifiersUrl r f u m s t).String).1 with
  | error err =>
    simp only [Proc.andThen, ParseResumptionToken_error xml _ err h]
    rfl
  | ok root =>
    simp only [Proc.andThen, ParseResumptionToken_ok xml _ root h, logPrintln, Proc.act, pure,
      Proc.ret]
    rfl

theorem invoke_fst (net : Net) (xml : XmlParser) (r : Repository) (c : Call) :
    (r.invoke net xml c).1 = r := by
  cases c <;> rfl

/-- Every run of `ListIdentifiers` starts by logging and requesting its URL, and then calls
the parser on the body it got. -/
theorem ListIdentifiers_trace (net : Net) (xml : XmlParser) (r : Repository)
    (f u m s t : String) :
    ∃ last : Event,
      (r.ListIdentifiers net xml f u m s t).trace =
          [.logPrintln (ListIdentifiersUrl r f u m s t).String,
            .httpGet (ListIdentifiersUrl r f u m s t).String,
            .xmlParse (fetchResult net (ListIdentifiersUrl r f u m s t).String).1, last] ∧
        last.isHttpGet = false := by
  rw [ListIdentifiers_eq]
  cases xml.Parse (fetchResult net (ListIdentifiersUrl r f u m s t).String).1 with
  | error err => exact ⟨_, rfl, rfl⟩
  | ok root => exact ⟨_, rfl, rfl⟩

theorem invoke_trace_take (net : Net) (xml : XmlParser) (r : Repository) (c : Call) :
    (r.invoke net xml c).2.trace.take 2 =
      [.logPrintln (c.url r).String, .httpGet (c.url r).String] := by
  cases c with
  | GetRecord i m =>
    simp only [Repository.invoke, Repository.GetRecord, BodyAsString_eq, Call.url]
    rfl
  | Identify =>
    simp only [Repository.invoke, Repository.Identify, BodyAsString_eq, Call.url]
    rfl
  | ListIdentifiers f u m s t =>
    obtain ⟨last, h, _⟩ := ListIdentifiers_trace net xml r f u m s t
    simp only [Repository.invoke, Call.url, h]
    rfl

theorem session_initial (net : Net) (xml : XmlParser) (r : Repository) (cs : List Call) :
    r.session net xml cs <+: cs.map (fun c => (r.invoke net xml c).2) := by
  induction cs with
  | nil => exact List.prefix_refl _
  | cons c cs ih =>
    simp only [Repository.session, List.map_cons]
    cases (r.invoke net xml c).2.outcome with
    | returned a =>
      simp only [invoke_fst]
      exact (List.prefix_cons_inj _).2 ih
    | exited status =>
      simp only
      exact (List.prefix_cons_inj _).2 (List.nil_prefix)

theorem session_eq (net : Net) (xml : XmlParser) (r : Repository) (cs : List Call)
    (h : ∀ c ∈ cs, ∃ res, (r.invoke net xml c).2.outcome = .returned res) :
    r.session net xml cs = cs.map (fun c => (r.invoke net xml c).2) := by
  induction cs with
  | nil => rfl
  | cons c cs ih =>
    obtain ⟨res, hres⟩ := h c (List.mem_cons_self _ _)
    simp only [Repository.session, List.map_cons, hres, invoke_fst]
    rw [ih (fun c' hc' => h c' (List.mem_cons_of_mem _ hc'))]

theorem mem_select_iff (root n : Node) :
    n ∈ resumptionTokenPath.select root ↔ Matches root n := by
  simp only [resumptionTokenPath, Path.select, List.mem_flatMap, List.mem_filter,
    List.mem_singleton, Matches]
  constructor
  · rintro ⟨a, ⟨ha, hna⟩, b, ⟨hb, hnb⟩, c, ⟨hc, hnc⟩, rfl⟩
    exact ⟨a, b, ha, hna, hb, hnb, hc, hnc⟩
  · rintro ⟨a, b, ha, hna, hb, hnb, hc, hnc⟩
    exact ⟨a, ⟨ha, hna⟩, b, ⟨hb, hnb⟩, n, ⟨hc, hnc⟩, rfl⟩

theorem String_of_element (n : Node) (name : String) (h : n.isElementNamed name = true) :
    n.String = textOfList n.children := by
  cases n with
  | element nm attrs children => rfl
  | text data => simp [Node.isElementNamed] at h
  | comment data => simp [Node.isElementNamed] at h
  | procInst target data => simp [Node.isElementNamed] at h

/-! ## The parameters of the verbs -/

/-- C1: a call of `ListIdentifiers` with a non-empty `resumptionToken` builds exactly the
parameters `verb=ListIdentifiers` and `resumptionToken=<token>`, whatever `from`, `until`,
`set` and `metadataPrefix` are: those four keys are absent, and the query string is
`resumptionToken=<escaped token>&verb=ListIdentifiers`. -/
theorem ListIdentifiers_token_exclusive (r : Repository) (f u m s t : String) (ht : t ≠ "") :
    ListIdentifiersParameters f u m s t =
        [("verb", ["ListIdentifiers"]), ("resumptionToken", [t])] ∧
      (ListIdentifiersParameters f u m s t).pairs =
        [("verb", "ListIdentifiers"), ("resumptionToken", t)] ∧
      "from" ∉ (ListIdentifiersParameters f u m s t).keys ∧
      "until" ∉ (ListIdentifiersParameters f u m s t).keys ∧
      "set" ∉ (ListIdentifiersParameters f u m s t).keys ∧
      "metadataPrefix" ∉ (ListIdentifiersParameters f u m s t).keys ∧
      (ListIdentifiersUrl r f u m s t).RawQuery =
        "resumptionToken=" ++ QueryEscape t ++ "&verb=ListIdentifiers" := by
  refine ⟨ListIdentifiersParameters_token f u m s t ht, ?_, ?_, ?_, ?_, ?_, ?_⟩
  · rw [ListIdentifiersParameters_token f u m s t ht]
    rfl
  · rw [ListIdentifiersParameters_token f u m s t ht]
    simp [Values.keys]
  · rw [ListIdentifiersParameters_token f u m s t ht]
    simp [Values.keys]
  · rw [ListIdentifiersParameters_token f u m s t ht]
    simp [Values.keys]
  · rw [ListIdentifiersParameters_token f u m s t ht]
    simp [Values.keys]
  · exact ListIdentifiers_token_query f u m s t ht

/-- Witness for C1: a token given together with all four selection arguments. -/
theorem ListIdentifiers_token_exclusive_witness :
    ListIdentifiersParameters "2001-01-01" "2002-01-01" "oai_dc" "physics" "tok1" =
        [("verb", ["ListIdentifiers"]), ("resumptionToken", ["tok1"])] :=
  (ListIdentifiers_token_exclusive ⟨exampleBase⟩
    "2001-01-01" "2002-01-01" "oai_dc" "physics" "tok1" (by decide)).1

/-- C2: a call of `ListIdentifiers` with an empty `resumptionToken` builds
`verb=ListIdentifiers`, no `resumptionToken`, and each of `from`, `until`, `set`,
`metadataPrefix` with exactly the supplied value if and only if that value is non-empty;
no other key occurs, and with all arguments empty only `verb` is left. -/
theorem ListIdentifiers_noToken_parameters (f u m s : String) :
    (ListIdentifiersParameters f u m s "").lookup "verb" = ["ListIdentifiers"] ∧
      "resumptionToken" ∉ (ListIdentifiersParameters f u m s "").keys ∧
      (("from" ∈ (ListIdentifiersParameters f u m s "").keys ↔ f ≠ "") ∧
        (ListIdentifiersParameters f u m s "").lookup "from" = if f = "" then [] else [f]) ∧
      (("until" ∈ (ListIdentifiersParameters f u m s "").keys ↔ u ≠ "") ∧
        (ListIdentifiersParameters f u m s "").lookup "until" = if u = "" then [] else [u]) ∧
      (("set" ∈ (ListIdentifiersParameters f u m s "").keys ↔ s ≠ "") ∧
        (ListIdentifiersParameters f u m s "").lookup "set" = if s = "" then [] else [s]) ∧
      (("metadataPrefix" ∈ (ListIdentifiersParameters f u m s "").keys ↔ m ≠ "") ∧
        (ListIdentifiersParameters f u m s "").lookup "metadataPrefix" =
          if m = "" then [] else [m]) ∧
      (∀ k ∈ (ListIdentifiersParameters f u m s "").keys,
        k ∈ ["verb", "from", "until", "set", "metadataPrefix"]) ∧
      (ListIdentifiersParameters f u m s "").keys.Nodup ∧
      ListIdentifiersParameters "" "" "" "" "" = [("verb", ["ListIdentifiers"])] ∧
      (ListIdentifiersParameters "" "" "" "" "").Encode = "verb=ListIdentifiers" := by
  rw [ListIdentifiersParameters_noToken]
  refine ⟨?_, ?_, ?_, ?_, ?_, ?_, ?_, ?_, ?_, by decide⟩
  · simp [Values.lookup]
  · by_cases hf : f = "" <;> by_cases hu : u = "" <;> by_cases hs : s = "" <;>
      by_cases hm : m = "" <;> simp [Values.keys, hf, hu, hs, hm]
  · by_cases hf : f = "" <;> by_cases hu : u = "" <;> by_cases hs : s = "" <;>
      by_cases hm : m = "" <;> simp [Values.keys, Values.lookup, hf, hu, hs, hm]
  · by_cases hf : f = "" <;> by_cases hu : u = "" <;> by_cases hs : s = "" <;>
      by_cases hm : m = "" <;> simp [Values.keys, Values.lookup, hf, hu, hs, hm]
  · by_cases hf : f = "" <;> by_cases hu : u = "" <;> by_cases hs : s = "" <;>
      by_cases hm : m = "" <;> simp [Values.keys, Values.lookup, hf, hu, hs, hm]
  · by_cases hf : f = "" <;> by_cases hu : u = "" <;> by_cases hs : s = "" <;>
      by_cases hm : m = "" <;> simp [Values.keys, Values.lookup, hf, hu, hs, hm]
  · by_cases hf : f = "" <;> by_cases hu : u = "" <;> by_cases hs : s = "" <;>
      by_cases hm : m = "" <;> simp [Values.keys, hf, hu, hs, hm]
  · by_cases hf : f = "" <;> by_cases hu : u = "" <;> by_cases hs : s = "" <;>
      by_cases hm : m = "" <;> simp [Values.keys, hf, hu, hs, hm]
  · rfl

/-- C3: `GetRecord` builds exactly the parameters `verb=GetRecord`, `identifier` and
`metadataPrefix` with the supplied values, empty or not; `Identify` builds only
`verb=Identify`. -/
theorem GetRecord_Identify_parameters (r : Repository) (identifier metadataPrefix : String) :
    GetRecordParameters identifier metadataPrefix =
        [("verb", ["GetRecord"]), ("identifier", [identifier]),
          ("metadataPrefix", [metadataPrefix])] ∧
      (GetRecordParameters identifier metadataPrefix).pairs =
        [("verb", "GetRecord"), ("identifier", identifier),
          ("metadataPrefix", metadataPrefix)] ∧
      (GetRecordParameters identifier metadataPrefix).keys =
        ["verb", "identifier", "metadataPrefix"] ∧
      (GetRecordUrl r identifier metadataPrefix).RawQuery =
        "identifier=" ++ QueryEscape identifier ++ "&metadataPrefix=" ++
          QueryEscape metadataPrefix ++ "&verb=GetRecord" ∧
      IdentifyParameters = [("verb", ["Identify"])] ∧
      IdentifyParameters.pairs = [("verb", "Identify")] ∧
      (IdentifyUrl r).RawQuery = "verb=Identify" := by
  refine ⟨GetRecordParameters_eq _ _, ?_, ?_, GetRecord_query _ _, rfl, rfl, ?_⟩
  · rw [GetRecordParameters_eq]
    rfl
  · rw [GetRecordParameters_eq]
    rfl
  · show IdentifyParameters.Encode = "verb=Identify"
    decide

/-- C4, as stated, fails: `GetRecord` with an empty identifier builds the parameter
`identifier` with the empty string as value, and the query string holds `identifier=`. -/
theorem GetRecord_empty_identifier_value :
    ("identifier", "") ∈ (Call.GetRecord "" "oai_dc").parameters.pairs ∧
      (Call.GetRecord "" "oai_dc").parameters.Encode =
        "identifier=&metadataPrefix=oai_dc&verb=GetRecord" := by
  decide

/-- C4, amended: every call builds the parameter `verb=<VerbName>` exactly once; the
parameters of `Identify` and of `ListIdentifiers` never have an empty value; those of
`GetRecord` have none exactly when `identifier` and `metadataPrefix` are both non-empty. -/
theorem verb_once_and_empty_values (c : Call) :
    c.parameters.pairs.filter (fun p => p.1 = "verb") = [("verb", c.verb)] ∧
      c.parameters.pairs.count ("verb", c.verb) = 1 ∧
      (∀ identifier metadataPrefix : String,
        (∀ p ∈ (GetRecordParameters identifier metadataPrefix).pairs, p.2 ≠ "") ↔
          (identifier ≠ "" ∧ metadataPrefix ≠ "")) ∧
      (∀ p ∈ IdentifyParameters.pairs, p.2 ≠ "") ∧
      (∀ f u m s t : String, ∀ p ∈ (ListIdentifiersParameters f u m s t).pairs, p.2 ≠ "") := by
  refine ⟨?_, ?_, ?_, ?_, ?_⟩
  · cases c with
    | GetRecord i m =>
      simp [Call.parameters, Call.verb, GetRecordParameters_eq, Values.pairs]
    | Identify =>
      simp [Call.parameters, Call.verb, IdentifyParameters_eq, Values.pairs]
    | ListIdentifiers f u m s t =>
      rcases ListIdentifiersParameters_cases f u m s t with ⟨_, h⟩ | ⟨_, h⟩
      · simp [Call.parameters, Call.verb, h, Values.pairs]
      · simp only [Call.parameters, Call.verb]
        rw [h]
        by_cases hf : f = "" <;> by_cases hu : u = "" <;> by_cases hs : s = "" <;>
          by_cases hm : m = "" <;> simp [Values.pairs, hf, hu, hs, hm]
  · cases c with
    | GetRecord i m =>
      simp [Call.parameters, Call.verb, GetRecordParameters_eq, Values.pairs]
    | Identify =>
      simp [Call.parameters, Call.verb, IdentifyParameters_eq, Values.pairs]
    | ListIdentifiers f u m s t =>
      rcases ListIdentifiersParameters_cases f u m s t with ⟨_, h⟩ | ⟨_, h⟩
      · simp [Call.parameters, Call.verb, h, Values.pairs]
      · simp only [Call.parameters, Call.verb]
        rw [h]
        by_cases hf : f = "" <;> by_cases hu : u = "" <;> by_cases hs : s = "" <;>
          by_cases hm : m = "" <;> simp [Values.pairs, hf, hu, hs, hm]
  · intro i m
    simp [GetRecordParameters_eq, Values.pairs]
  · simp [IdentifyParameters_eq, Values.pairs]
  · intro f u m s t
    rcases ListIdentifiersParameters_cases f u m s t with ⟨ht, h⟩ | ⟨_, h⟩
    · simp [h, Values.pairs, ht]
    · rw [h]
      by_cases hf : f = "" <;> by_cases hu : u = "" <;> by_cases hs : s = "" <;>
        by_cases hm : m = "" <;> simp [Values.pairs, hf, hu, hs, hm]

/-! ## The URL requested -/

/-- C5: the URL a call requests is the endpoint (scheme, authority and path of the base
URL), then `?`, then the parameters as `key=value` joined by `&` with keys ascending and
keys and values percent-escaped; a fragment of the base URL, if there is one, trails.  For
a base URL without query and fragment this is the base URL followed by `?` and the
parameters.  For the base `http://example.org/oai2`, identifier `oai:example:1` and prefix
`oai_dc`, `GetRecord` logs and requests exactly
`http://example.org/oai2?identifier=oai%3Aexample%3A1&metadataPrefix=oai_dc&verb=GetRecord`. -/
theorem request_url_format (r : Repository) (c : Call) :
    (c.url r).String =
        r.Url.hierPart ++ "?" ++ "&".intercalate (c.parameters.sortedPairs.map renderPair) ++
          fragmentPart r.Url ∧
      c.parameters.sortedPairs =
        (sortStrings c.parameters.keys).flatMap
          (fun k => (c.parameters.lookup k).map (fun x => (k, x))) ∧
      (sortStrings c.parameters.keys).Sorted (fun a b => strLess b a = false) ∧
      (sortStrings c.parameters.keys).Perm c.parameters.keys ∧
      (r.Url.RawQuery = "" → r.Url.ForceQuery = false → r.Url.Fragment = "" →
        (c.url r).String =
          r.Url.String ++ "?" ++ "&".intercalate (c.parameters.sortedPairs.map renderPair)) ∧
      URL.String exampleBase =
        "http://example.org/oai2" ∧
      (∀ net : Net,
        Repository.GetRecord net ⟨exampleBase⟩
            "oai:example:1" "oai_dc" =
          ⟨[.logPrintln
              "http://example.org/oai2?identifier=oai%3Aexample%3A1&metadataPrefix=oai_dc&verb=GetRecord",
            .httpGet
              "http://example.org/oai2?identifier=oai%3Aexample%3A1&metadataPrefix=oai_dc&verb=GetRecord"],
            .returned (fetchResult net
              "http://example.org/oai2?identifier=oai%3Aexample%3A1&metadataPrefix=oai_dc&verb=GetRecord")⟩) := by
  refine ⟨?_, rfl, (sortStrings_sorted _).1, (sortStrings_sorted _).2, ?_, by decide, ?_⟩
  · rw [Call.url_String, Encode_eq]
  · intro hq hfq hf
    rw [Call.url_String, Encode_eq]
    have h1 : fragmentPart r.Url = "" := by simp [fragmentPart, hf]
    have h2 : r.Url.String = r.Url.hierPart := by simp [URL.String, hq, hfq, hf]
    rw [h1, h2, String.append_empty]
  · intro net
    have hU : (GetRecordUrl ⟨exampleBase⟩
        "oai:example:1" "oai_dc").String =
        "http://example.org/oai2?identifier=oai%3Aexample%3A1&metadataPrefix=oai_dc&verb=GetRecord" := by
      decide
    unfold Repository.GetRecord
    rw [BodyAsString_eq, hU]

/-- Witness for C5: `Identify` on the base `http://example.org/oai2`. -/
theorem request_url_format_witness :
    (Call.url ⟨exampleBase⟩ .Identify).String =
      URL.String exampleBase ++ "?" ++
        "&".intercalate (Call.Identify.parameters.sortedPairs.map renderPair) :=
  (request_url_format ⟨exampleBase⟩ .Identify).2.2.2.2.1
    rfl rfl rfl

/-- C6: a call leaves the receiver as it was; the URL it requests has the scheme, opaque
part, user, host, path and fragment of the base URL and the encoded parameters of this call
as query, whatever query the base URL carries; successive calls on one repository are the
same runs, hence request the same URLs, as each call on its own. -/
theorem verb_call_frame (net : Net) (xml : XmlParser) (r : Repository) (c : Call) :
    (r.invoke net xml c).1 = r ∧
      (c.url r).Scheme = r.Url.Scheme ∧ (c.url r).Opaque = r.Url.Opaque ∧
      (c.url r).User = r.Url.User ∧ (c.url r).Host = r.Url.Host ∧
      (c.url r).Path = r.Url.Path ∧ (c.url r).Fragment = r.Url.Fragment ∧
      (c.url r).RawPath = r.Url.RawPath ∧ (c.url r).OmitHost = r.Url.OmitHost ∧
      (c.url r).ForceQuery = r.Url.ForceQuery ∧ (c.url r).RawFragment = r.Url.RawFragment ∧
      (c.url r).RawQuery = c.parameters.Encode ∧
      (∀ q : String, c.url ⟨{ r.Url with RawQuery := q }⟩ = c.url r) ∧
      (r.invoke net xml c).2.trace.take 2 =
        [.logPrintln (c.url r).String, .httpGet (c.url r).String] ∧
      (∀ cs : List Call,
        r.session net xml cs <+: cs.map (fun c' => (r.invoke net xml c').2)) ∧
      (∀ cs : List Call,
        (∀ c' ∈ cs, ∃ res, (r.invoke net xml c').2.outcome = .returned res) →
          r.session net xml cs = cs.map (fun c' => (r.invoke net xml c').2)) := by
  refine ⟨invoke_fst net xml r c, ?_, ?_, ?_, ?_, ?_, ?_, ?_, ?_, ?_, ?_, ?_, ?_,
    invoke_trace_take net xml r c,
    session_initial net xml r, session_eq net xml r⟩
  all_goals first
    | (rw [Call.url_eq]; done)
    | (intro q; rw [Call.url_eq, Call.url_eq])

/-! ## Fetching and the resumption token -/

/-- C8: `GetRecord` and `Identify` log their URL, make one GET on it and return the pair
`BodyAsString` returns, without any other action; `ListIdentifiers` makes one GET, on its
URL, and either exits because the parser rejected the body or returns the pair
`BodyAsString` returned, whatever the path found in the document. -/
theorem verb_fetches_once (net : Net) (xml : XmlParser) (r : Repository) :
    (∀ locator : URL,
        BodyAsString net locator =
          ⟨[.logPrintln locator.String, .httpGet locator.String],
            .returned (fetchResult net locator.String)⟩) ∧
      (∀ identifier metadataPrefix : String,
        r.GetRecord net identifier metadataPrefix =
          ⟨[.logPrintln (GetRecordUrl r identifier metadataPrefix).String,
              .httpGet (GetRecordUrl r identifier metadataPrefix).String],
            .returned (fetchResult net (GetRecordUrl r identifier metadataPrefix).String)⟩) ∧
      r.Identify net =
        ⟨[.logPrintln (IdentifyUrl r).String, .httpGet (IdentifyUrl r).String],
          .returned (fetchResult net (IdentifyUrl r).String)⟩ ∧
      (∀ f u m s t : String,
        (r.ListIdentifiers net xml f u m s t).trace.filter Event.isHttpGet =
            [.httpGet (ListIdentifiersUrl r f u m s t).String] ∧
          (r.ListIdentifiers net xml f u m s t).outcome =
            match xml.Parse (fetchResult net (ListIdentifiersUrl r f u m s t).String).1 with
            | .error _ => .exited 1
            | .ok _ => .returned (fetchResult net (ListIdentifiersUrl r f u m s t).String)) ∧
      Repository.ListIdentifiers (servingNet exampleDocument) exampleXml ⟨exampleBase⟩
          "" "" "oai_dc" "" "" =
        ⟨[.logPrintln "http://example.org/oai2?metadataPrefix=oai_dc&verb=ListIdentifiers",
            .httpGet "http://example.org/oai2?metadataPrefix=oai_dc&verb=ListIdentifiers",
            .xmlParse exampleDocument, .logPrintln "ABC123"],
          .returned (exampleDocument, none)⟩ := by
  refine ⟨BodyAsString_eq net, fun i m => BodyAsString_eq net _, BodyAsString_eq net _, ?_,
    by decide⟩
  intro f u m s t
  constructor
  · obtain ⟨last, h, hl⟩ := ListIdentifiers_trace net xml r f u m s t
    rw [h]
    simp only [List.filter, hl]
    rfl
  · rw [ListIdentifiers_eq]
    cases xml.Parse (fetchResult net (ListIdentifiersUrl r f u m s t).String).1 <;> rfl

/-- C7 fails on the code: `ListIdentifiers` calls the parser on the body after every
fetch.  When the request fails, the run still holds a call of the parser, on the empty
body: with a parser that accepts the empty text, as `xmlpath.Parse` does, an empty token
line is logged before the error is returned; if the parser rejected it, the process would
exit and the error would never be returned. -/
theorem ListIdentifiers_parses_after_failed_fetch :
    (∀ (net : Net) (xml : XmlParser) (r : Repository) (f u m s t : String),
        Event.xmlParse (fetchResult net (ListIdentifiersUrl r f u m s t).String).1 ∈
          (r.ListIdentifiers net xml f u m s t).trace) ∧
      fetchResult refusingNet "http://example.org/oai2?metadataPrefix=oai_dc&verb=ListIdentifiers" =
        ("", some ⟨"connection refused"⟩) ∧
      Repository.ListIdentifiers refusingNet exampleXml ⟨exampleBase⟩ "" "" "oai_dc" "" "" =
        ⟨[.logPrintln "http://example.org/oai2?metadataPrefix=oai_dc&verb=ListIdentifiers",
            .httpGet "http://example.org/oai2?metadataPrefix=oai_dc&verb=ListIdentifiers",
            .xmlParse "", .logPrintln ""],
          .returned ("", some ⟨"connection refused"⟩)⟩ ∧
      (∀ (net : Net) (xml : XmlParser) (r : Repository) (f u m s t : String)
          (err e : GoError),
        net.Get (ListIdentifiersUrl r f u m s t).String = .error err →
          xml.Parse "" = .error e →
          r.ListIdentifiers net xml f u m s t =
            ⟨[.logPrintln (ListIdentifiersUrl r f u m s t).String,
                .httpGet (ListIdentifiersUrl r f u m s t).String,
                .xmlParse "", .logFatal e],
              .exited 1⟩) := by
  refine ⟨?_, by decide, by decide, ?_⟩
  · intro net xml r f u m s t
    obtain ⟨last, h, _⟩ := ListIdentifiers_trace net xml r f u m s t
    rw [h]
    simp
  · intro net xml r f u m s t err e hget hparse
    have hf : fetchResult net (ListIdentifiersUrl r f u m s t).String = ("", some err) := by
      simp [fetchResult, hget]
    rw [ListIdentifiers_eq, hf]
    simp only [hparse]

/-- C9, as stated, fails: the example response preceded by a declaration that names the
encoding ISO-8859-1 is a well-formed XML document, as the same document declaring UTF-8
is, but `xmlpath.Parse` rejects it (its decoder has no `CharsetReader`) and
`ParseResumptionToken` ends the process instead of returning `ABC123`. -/
theorem ParseResumptionToken_exits_on_declared_encoding :
    xmlpathParse latin1Document =
        some (.error ⟨"xml: encoding \"ISO-8859-1\" declared but Decoder.CharsetReader is nil"⟩) ∧
      ParseResumptionToken exampleXml latin1Document =
        ⟨[.xmlParse latin1Document,
            .logFatal ⟨"xml: encoding \"ISO-8859-1\" declared but Decoder.CharsetReader is nil"⟩],
          .exited 1⟩ ∧
      xmlpathParse utf8Document = some (.ok utf8Tree) ∧
      isDocument utf8Tree = true ∧
      ParseResumptionToken exampleXml utf8Document =
        ⟨[.xmlParse utf8Document], .returned "ABC123"⟩ := by
  refine ⟨rfl, by decide, rfl, rfl, by decide⟩

/-- C9, amended: when the parser accepts the text, `ParseResumptionToken` returns the text
within the first element the path `OAI-PMH/ListIdentifiers/resumptionToken` matches from
the root, if there is one, and the empty string if there is none; for the tree of the
example document it returns `ABC123`. -/
theorem ParseResumptionToken_spec (xml : XmlParser) (s : String) (root : Node)
    (h : xml.Parse s = .ok root) :
    ((∃ n, Matches root n) →
        ∃ n rest, resumptionTokenPath.select root = n :: rest ∧ Matches root n ∧
          n.String = textOfList n.children ∧
          ParseResumptionToken xml s = ⟨[.xmlParse s], .returned n.String⟩) ∧
      ((¬ ∃ n, Matches root n) →
        ParseResumptionToken xml s = ⟨[.xmlParse s], .returned ""⟩) ∧
      (root = exampleTree →
        ParseResumptionToken xml s = ⟨[.xmlParse s], .returned "ABC123"⟩) := by
  rw [ParseResumptionToken_ok xml s root h]
  refine ⟨?_, ?_, ?_⟩
  · rintro ⟨n, hn⟩
    cases hsel : resumptionTokenPath.select root with
    | nil =>
      rw [← mem_select_iff, hsel] at hn
      exact absurd hn (List.not_mem_nil _)
    | cons n' rest =>
      have hm : Matches root n' := by
        rw [← mem_select_iff, hsel]
        exact List.mem_cons_self _ _
      obtain ⟨a, b, _, _, _, _, _, hname⟩ := hm
      refine ⟨n', rest, rfl, ⟨a, b, ‹_›, ‹_›, ‹_›, ‹_›, ‹_›, hname⟩,
        String_of_element n' _ hname, ?_⟩
      simp [Path.String, hsel]
  · intro hnone
    cases hsel : resumptionTokenPath.select root with
    | nil => simp [Path.String, hsel]
    | cons n' rest =>
      exfalso
      apply hnone
      refine ⟨n', ?_⟩
      rw [← mem_select_iff, hsel]
      exact List.mem_cons_self _ _
  · rintro rfl
    rfl

/-- Witness for C9: the example document, which `xmlpath.Parse` reads as the example
tree. -/
theorem ParseResumptionToken_spec_witness :
    xmlpathParse exampleDocument = some (.ok exampleTree) ∧
      ParseResumptionToken exampleXml exampleDocument =
        ⟨[.xmlParse exampleDocument], .returned "ABC123"⟩ :=
  ⟨rfl, (ParseResumptionToken_spec exampleXml exampleDocument exampleTree rfl).2.2 rfl⟩

/-- C10, as stated, fails: the empty text, a text without any element and a text with two
top-level elements are not well-formed XML documents, yet `xmlpath.Parse` accepts them and
`ParseResumptionToken` returns the empty string instead of ending the process. -/
theorem ParseResumptionToken_returns_on_malformed :
    xmlpathParse "" = some (.ok (.element "" [] [])) ∧
      isDocument (.element "" [] []) = false ∧
      ParseResumptionToken exampleXml "" = ⟨[.xmlParse ""], .returned ""⟩ ∧
      xmlpathParse "not xml" = some (.ok (.element "" [] [.text "not xml"])) ∧
      isDocument (.element "" [] [.text "not xml"]) = false ∧
      ParseResumptionToken exampleXml "not xml" = ⟨[.xmlParse "not xml"], .returned ""⟩ ∧
      xmlpathParse "<a/><b/>" =
        some (.ok (.element "" [] [.element "a" [] [], .element "b" [] []])) ∧
      isDocument (.element "" [] [.element "a" [] [], .element "b" [] []]) = false ∧
      ParseResumptionToken exampleXml "<a/><b/>" = ⟨[.xmlParse "<a/><b/>"], .returned ""⟩ := by
  refine ⟨rfl, rfl, by decide, rfl, rfl, by decide, rfl, rfl, by decide⟩

/-- C10, amended: when the parser returns an error for the text, `ParseResumptionToken` logs
the error and exits the process with status 1 instead of returning; when the parser accepts
the text, well-formed or not, it returns; `GetRecord` and `Identify` always return, and
never call the parser or `log.Fatal`; `ListIdentifiers` exits whenever the parser rejects
the body fetched. -/
theorem ParseResumptionToken_fatal (xml : XmlParser) (s : String) (err : GoError)
    (h : xml.Parse s = .error err) :
    ParseResumptionToken xml s = ⟨[.xmlParse s, .logFatal err], .exited 1⟩ ∧
      (∀ (s' : String) (root : Node), xml.Parse s' = .ok root →
        ∃ v, ParseResumptionToken xml s' = ⟨[.xmlParse s'], .returned v⟩) ∧
      (∀ (net : Net) (r : Repository) (identifier metadataPrefix : String),
        (∃ res, (r.GetRecord net identifier metadataPrefix).outcome = .returned res) ∧
          ∀ e ∈ (r.GetRecord net identifier metadataPrefix).trace,
            e.isXmlParse = false ∧ e.isLogFatal = false) ∧
      (∀ (net : Net) (r : Repository),
        (∃ res, (r.Identify net).outcome = .returned res) ∧
          ∀ e ∈ (r.Identify net).trace, e.isXmlParse = false ∧ e.isLogFatal = false) ∧
      (∀ (net : Net) (r : Repository) (f u m st t : String),
        (fetchResult net (ListIdentifiersUrl r f u m st t).String).1 = s →
          r.ListIdentifiers net xml f u m st t =
            ⟨[.logPrintln (ListIdentifiersUrl r f u m st t).String,
                .httpGet (ListIdentifiersUrl r f u m st t).String,
                .xmlParse s, .logFatal err],
              .exited 1⟩) := by
  refine ⟨ParseResumptionToken_error xml s err h, ?_, ?_, ?_, ?_⟩
  · intro s' root hok
    exact ⟨_, ParseResumptionToken_ok xml s' root hok⟩
  · intro net r i m
    unfold Repository.GetRecord
    rw [BodyAsString_eq]
    refine ⟨⟨_, rfl⟩, ?_⟩
    intro e he
    simp only [List.mem_cons, List.mem_singleton, List.not_mem_nil, or_false] at he
    rcases he with rfl | rfl <;> exact ⟨rfl, rfl⟩
  · intro net r
    unfold Repository.Identify
    rw [BodyAsString_eq]
    refine ⟨⟨_, rfl⟩, ?_⟩
    intro e he
    simp only [List.mem_cons, List.mem_singleton, List.not_mem_nil, or_false] at he
    rcases he with rfl | rfl <;> exact ⟨rfl, rfl⟩
  · intro net r f u m st t hs
    rw [ListIdentifiers_eq, hs, h]

/-- Witness for C10: an element that is never closed; `xmlpath.Parse` reports the syntax
error of the decoder and the process exits. -/
theorem ParseResumptionToken_fatal_witness :
    xmlpathParse "<OAI-PMH>" =
        some (.error ⟨"XML syntax error on line 1: unexpected EOF"⟩) ∧
      ParseResumptionToken exampleXml "<OAI-PMH>" =
        ⟨[.xmlParse "<OAI-PMH>", .logFatal ⟨"XML syntax error on line 1: unexpected EOF"⟩],
          .exited 1⟩ :=
  ⟨rfl,
    (ParseResumptionToken_fatal exampleXml "<OAI-PMH>"
      ⟨"XML syntax error on line 1: unexpected EOF"⟩ rfl).1⟩

end Goai
